import Mathlib

set_option maxHeartbeats 1000000

/-! Verification of the zod-like schema validation library (src/unnamed/part_001).
The JavaScript runtime values handled by the library are embedded as `JSValue`;
the schema combinators as the inductive `SchemaD`; the validation function
`safeParseFn(value, context?)` is embedded as the pair `fastP` (call without a
context) and `sp` (call with a context `{path, errors}`, with the shared
mutable `errors` array threaded in state-passing style).  A JavaScript
exception (`throw new Error(msg)`) is modelled by the result `GRes.raise msg`. -/

/-- A JavaScript runtime value, as far as the library inspects it.
Objects are ordered key/value lists (JS insertion order); runtime JS objects
have pairwise distinct keys. -/
inductive JSValue where
  | vstr (s : String)
  | vnum (n : Int)
  | vbool (b : Bool)
  | vbigint (n : Int)
  | vnull
  | vundef
  | varr (items : List JSValue)
  | vobj (fields : List (String × JSValue))
  deriving Repr

/-- Embeds `getType` (part_001 lines 5-10): `undefined`, `null`, `array`,
otherwise `typeof value`. -/
def getType : JSValue → String
  | .vundef => "undefined"
  | .vnull => "null"
  | .varr _ => "array"
  | .vstr _ => "string"
  | .vnum _ => "number"
  | .vbool _ => "boolean"
  | .vbigint _ => "bigint"
  | .vobj _ => "object"

def commaSep : String := ", "

def slashSep : String := "/"

/-- JS string interpolation of a value, used by the literal schema message
(only scalars can be literals in the source, via its type constraint). -/
def jsToString : JSValue → String
  | .vstr s => s
  | .vnum n => toString n
  | .vbool b => toString b
  | .vbigint n => toString n
  | .vnull => "null"
  | .vundef => "undefined"
  | .varr _ => "array"
  | .vobj _ => "[object Object]"

/-- One step of an error path: a property name or an array index. -/
inductive PathEntry where
  | key (s : String)
  | idx (n : Nat)
  deriving DecidableEq, Repr

abbrev EPath := List PathEntry

/-- A collected validation error: `{path, message}`. -/
structure VError where
  path : EPath
  message : String
  deriving DecidableEq, Repr

/-- Embeds `context.errors.push({path, message})`. -/
def pushError (p : EPath) (errs : List VError) (msg : String) : List VError :=
  errs ++ [⟨p, msg⟩]

/-- Embeds the JS member access `object[key]` on a plain object:
the first binding wins, a missing key gives `undefined`. -/
def lookupField : List (String × JSValue) → String → JSValue
  | [], _ => .vundef
  | (k, w) :: rest, key => if k = key then w else lookupField rest key

/-- Embeds the JS `key in schema` test on an object schema shape. -/
def hasKeyS : List (String × α) → String → Bool
  | [], _ => false
  | (k, _) :: rest, key => if k = key then true else hasKeyS rest key

/-- The unrecognized keys of an input object with respect to a shape, in input
order: embeds the strict-mode loops over `Object.keys(object)`
(part_001 lines 103-108 and 119-129; both loops apply the same
`key in schema` test, so the fast check succeeds iff this list is empty). -/
def unrecognizedKeys (shape : List (String × α)) :
    List (String × JSValue) → List String
  | [] => []
  | (k, _) :: rest =>
    if hasKeyS shape k then unrecognizedKeys shape rest
    else k :: unrecognizedKeys shape rest

/-- The result of one `safeParseFn` call: success with data, plain failure
(`{success:false}`), or a thrown JS exception carrying a message. -/
inductive GRes (α : Type) where
  | ok (data : α)
  | fail
  | raise (msg : String)
  deriving DecidableEq, Repr

/-- Deep embedding of the schemas constructible from the source's exported
constructors.  `transformS` carries the user callback as a Lean function whose
`Except.error` models the callback throwing.  `lazyS` models `lazy(fn)` by the
schema the thunk returns (the spec requires the thunk to terminate; validation
just delegates to the produced schema).  `discUnionS` is modelled from the
spec (see `discriminatedUnion` below): the source files do not contain it. -/
inductive SchemaD where
  | stringS
  | numberS
  | booleanS
  | bigintS
  | nullS
  | undefinedS
  | unknownS
  | literalS (lit : JSValue)
  | arrayS (item : SchemaD)
  | tupleS (items : List SchemaD)
  | objectS (shape : List (String × SchemaD)) (strict : Bool)
  | recordS (valueSchema : SchemaD)
  | unionS (branches : List SchemaD)
  | transformS (inner : SchemaD) (fn : JSValue → Except String JSValue)
  | lazyS (inner : SchemaD)
  | discUnionS (dkey : String) (branches : List (JSValue × SchemaD))

/-- JS strict equality `===` as used by the literal check `value !== literal`
(part_001 line 223) and the spec-modelled discriminator comparison: structural
on scalars.  (`===` between a stored literal and a freshly deserialized
composite input is reference equality and never holds; the exported `literal`
constructor only accepts scalars by its type.) -/
def scalarEq : JSValue → JSValue → Bool
  | .vstr a, .vstr b => a == b
  | .vnum a, .vnum b => a == b
  | .vbool a, .vbool b => a == b
  | .vbigint a, .vbigint b => a == b
  | .vnull, .vnull => true
  | .vundef, .vundef => true
  | _, _ => false

/-- Modelled from the spec: the shared value-inspection routine for error
messages (spec section 4.2: renders undefined, null, array, object, and
otherwise type plus value).  It is absent from src (the source getType renders
the type only); it is used here only by the spec-modelled discriminated union
messages. -/
def inspect : JSValue → String
  | .vundef => "undefined"
  | .vnull => "null"
  | .varr _ => "array"
  | .vobj _ => "object"
  | .vstr s => "string " ++ "\"" ++ s ++ "\""
  | .vnum n => "number " ++ toString n
  | .vbool b => "boolean " ++ toString b
  | .vbigint n => "bigint " ++ toString n

/-- Number of discriminated-union branches declaring the given discriminator
value (spec section 4.4, modelled from the spec). -/
def countMatches (dv : JSValue) (branches : List (JSValue × SchemaD)) : Nat :=
  (branches.filter (fun b => scalarEq b.1 dv)).length

/-- The JS read `value[index]` for the current tuple position: the head of
the remaining items, JS undefined past the end. -/
def headOr : List JSValue → JSValue
  | [] => .vundef
  | x :: _ => x

mutual

/-- Embeds a call `schema.safeParseFn(value, undefined)` (no diagnostic
context): the fast pass.  It cannot touch any error list (the context is
undefined in the source call), hence the error-free type. -/
def fastP : SchemaD → JSValue → GRes JSValue
  | .stringS, v => match v with | .vstr _ => .ok v | _ => .fail
  | .numberS, v => match v with | .vnum _ => .ok v | _ => .fail
  | .booleanS, v => match v with | .vbool _ => .ok v | _ => .fail
  | .bigintS, v => match v with | .vbigint _ => .ok v | _ => .fail
  | .nullS, v => match v with | .vnull => .ok v | _ => .fail
  | .undefinedS, v => match v with | .vundef => .ok v | _ => .fail
  | .unknownS, v => .ok v
  | .literalS lit, v => if scalarEq v lit then .ok lit else .fail
  | .arrayS item, v =>
    match v with
    | .varr items =>
      match fastArr item items with
      | .ok parsed => .ok (.varr parsed)
      | .fail => .fail
      | .raise m => .raise m
    | _ => .fail
  | .tupleS ss, v =>
    match v with
    | .varr items =>
      if items.length = ss.length then
        match fastTup ss items with
        | .ok parsed => .ok (.varr parsed)
        | .fail => .fail
        | .raise m => .raise m
      else .fail
    | _ => .fail
  | .objectS shape strict, v =>
    match v with
    | .vobj fields =>
      match fastObj shape fields with
      | .ok parsed =>
        if strict && !(unrecognizedKeys shape fields).isEmpty then .fail
        else .ok (.vobj parsed)
      | .fail => .fail
      | .raise m => .raise m
    | _ => .fail
  | .recordS valS, v =>
    match v with
    | .vobj fields =>
      match fastRec valS fields with
      | .ok parsed => .ok (.vobj parsed)
      | .fail => .fail
      | .raise m => .raise m
    | _ => .raise ("Expected object, got " ++ getType v)
  | .unionS bs, v => fastUnion bs v
  | .transformS inner fn, v =>
    match fastP inner v with
    | .ok d =>
      match fn d with
      | .ok u => .ok u
      | .error _ => .fail
    | .fail => .fail
    | .raise _ => .fail
  | .lazyS inner, v => fastP inner v
  | .discUnionS dkey bs, v =>
    match v with
    | .vobj fields =>
      if countMatches (lookupField fields dkey) bs = 1 then
        fastDiscFirst bs (lookupField fields dkey) v
      else .fail
    | _ => .fail
termination_by s _ => (sizeOf s, 0)

/-- Fast pass over array items, in order, stopping at the first failure
(part_001 lines 145-156). -/
def fastArr (item : SchemaD) : List JSValue → GRes (List JSValue)
  | [] => .ok []
  | x :: xs =>
    match fastP item x with
    | .ok d =>
      match fastArr item xs with
      | .ok ds => .ok (d :: ds)
      | .fail => .fail
      | .raise m => .raise m
    | .fail => .fail
    | .raise m => .raise m
termination_by vs => (sizeOf item, 1 + sizeOf vs)

/-- Fast pass over tuple positions (part_001 lines 336-348); positions past
the end of the value read as JS undefined (the length equality is checked
before this runs). -/
def fastTup : List SchemaD → List JSValue → GRes (List JSValue)
  | [], _ => .ok []
  | s :: rest, vs =>
    match fastP s (headOr vs) with
    | .ok d =>
      match fastTup rest vs.tail with
      | .ok ds => .ok (d :: ds)
      | .fail => .fail
      | .raise m => .raise m
    | .fail => .fail
    | .raise m => .raise m
termination_by ss _ => (sizeOf ss, 0)

/-- Fast pass over the declared fields of an object shape, in declaration
order (part_001 lines 95-102); a missing input key reads as JS undefined. -/
def fastObj : List (String × SchemaD) → List (String × JSValue) → GRes (List (String × JSValue))
  | [], _ => .ok []
  | (k, fs) :: rest, fields =>
    match fastP fs (lookupField fields k) with
    | .ok d =>
      match fastObj rest fields with
      | .ok ds => .ok ((k, d) :: ds)
      | .fail => .fail
      | .raise m => .raise m
    | .fail => .fail
    | .raise m => .raise m
termination_by shape _ => (sizeOf shape, 0)

/-- Fast pass over the entries of a record input (part_001 lines 278-288).
`parsedObject[key] = result.data` is an append here because JS runtime
objects have pairwise distinct keys. -/
def fastRec (valS : SchemaD) : List (String × JSValue) → GRes (List (String × JSValue))
  | [] => .ok []
  | (k, w) :: rest =>
    match fastP valS w with
    | .ok d =>
      match fastRec valS rest with
      | .ok ds => .ok ((k, d) :: ds)
      | .fail => .fail
      | .raise m => .raise m
    | .fail => .fail
    | .raise m => .raise m
termination_by fields => (sizeOf valS, 1 + sizeOf fields)

/-- Fast pass of a union: first succeeding branch wins (part_001 lines
377-382); a branch that throws propagates. -/
def fastUnion : List SchemaD → JSValue → GRes JSValue
  | [], _ => .fail
  | b :: rest, v =>
    match fastP b v with
    | .ok d => .ok d
    | .raise m => .raise m
    | .fail => fastUnion rest v
termination_by bs _ => (sizeOf bs, 0)

/-- Modelled from the spec: delegation to the first branch declaring the
discriminator value (called only when exactly one branch matches). -/
def fastDiscFirst : List (JSValue × SchemaD) → JSValue → JSValue → GRes JSValue
  | [], _, _ => .fail
  | (l, b) :: rest, dv, v =>
    if scalarEq l dv then fastP b v else fastDiscFirst rest dv v
termination_by bs _ _ => (sizeOf bs, 0)

/-- Embeds a call `schema.safeParseFn(value, context)` with a context
`{path := p, errors := errs}`: the returned list is the state of the shared
mutable `errors` array when the call returns or throws.  Composite validators
run the fast pass first and re-walk children with sub-contexts only when it
fails (part_001, two-phase structure; the per-constructor fail branches are
the `sp...Fail` helpers below); `transform` and `lazy` are single-phase and
pass the context through. -/
def sp : SchemaD → JSValue → EPath → List VError → GRes JSValue × List VError
  | .stringS, v, p, errs =>
    match fastP .stringS v with
    | .ok d => (.ok d, errs)
    | .raise m => (.raise m, errs)
    | .fail => (.fail, pushError p errs ("Expected string, got " ++ getType v))
  | .numberS, v, p, errs =>
    match fastP .numberS v with
    | .ok d => (.ok d, errs)
    | .raise m => (.raise m, errs)
    | .fail => (.fail, pushError p errs ("Expected number, got " ++ getType v))
  | .booleanS, v, p, errs =>
    match fastP .booleanS v with
    | .ok d => (.ok d, errs)
    | .raise m => (.raise m, errs)
    | .fail => (.fail, pushError p errs ("Expected boolean, got " ++ getType v))
  | .bigintS, v, p, errs =>
    match fastP .bigintS v with
    | .ok d => (.ok d, errs)
    | .raise m => (.raise m, errs)
    | .fail => (.fail, pushError p errs ("Expected bigint, got " ++ getType v))
  | .nullS, v, p, errs =>
    match fastP .nullS v with
    | .ok d => (.ok d, errs)
    | .raise m => (.raise m, errs)
    | .fail => (.fail, pushError p errs ("Expected null, got " ++ getType v))
  | .undefinedS, v, p, errs =>
    match fastP .undefinedS v with
    | .ok d => (.ok d, errs)
    | .raise m => (.raise m, errs)
    | .fail => (.fail, pushError p errs ("Expected undefined, got " ++ getType v))
  | .unknownS, v, _, errs => (.ok v, errs)
  | .literalS lit, v, p, errs =>
    match fastP (.literalS lit) v with
    | .ok d => (.ok d, errs)
    | .raise m => (.raise m, errs)
    | .fail =>
      (.fail, pushError p errs
        ("Expected literal " ++ jsToString lit ++ ", got " ++ getType v))
  | .arrayS item, v, p, errs =>
    match fastP (.arrayS item) v with
    | .ok d => (.ok d, errs)
    | .raise m => (.raise m, errs)
    | .fail => spArrFail item v p errs
  | .tupleS ss, v, p, errs =>
    match fastP (.tupleS ss) v with
    | .ok d => (.ok d, errs)
    | .raise m => (.raise m, errs)
    | .fail => spTupFail ss v p errs
  | .objectS shape strict, v, p, errs =>
    match fastP (.objectS shape strict) v with
    | .ok d => (.ok d, errs)
    | .raise m => (.raise m, errs)
    | .fail => spObjFail shape strict v p errs
  | .recordS valS, v, p, errs =>
    match fastP (.recordS valS) v with
    | .ok d => (.ok d, errs)
    | .raise m => (.raise m, errs)
    | .fail => spRecFail valS v p errs
  | .unionS bs, v, p, errs =>
    match fastP (.unionS bs) v with
    | .ok d => (.ok d, errs)
    | .raise m => (.raise m, errs)
    | .fail =>
      match diagUnion bs v p errs with
      | (.raise m, e1) => (.raise m, e1)
      | (.ok _, e1) => (.fail, e1)
      | (.fail, e1) => (.fail, e1)
  | .transformS inner fn, v, p, errs =>
    match sp inner v p errs with
    | (.ok d, e1) =>
      match fn d with
      | .ok u => (.ok u, e1)
      | .error m => (.fail, pushError p e1 m)
    | (.fail, e1) => (.fail, e1)
    | (.raise m, e1) => (.fail, pushError p e1 m)
  | .lazyS inner, v, p, errs => sp inner v p errs
  | .discUnionS dkey bs, v, p, errs => spDisc dkey bs v p errs
termination_by s _ _ _ => (sizeOf s, 1)

/-- The context-supplied fail branch of the array validator (part_001 lines
139-144 and 157-166). -/
def spArrFail (item : SchemaD) (v : JSValue) (p : EPath) (errs : List VError) :
    GRes JSValue × List VError :=
  match v with
  | .varr items =>
    match diagArr item items 0 p errs with
    | (.raise m, e1) => (.raise m, e1)
    | (.ok _, e1) => (.fail, e1)
    | (.fail, e1) => (.fail, e1)
  | _ => (.fail, pushError p errs ("Expected array, got " ++ getType v))
termination_by (sizeOf item, 3 + sizeOf v)

/-- The context-supplied fail branch of the tuple validator (part_001 lines
321-335 and 349-359). -/
def spTupFail (ss : List SchemaD) (v : JSValue) (p : EPath) (errs : List VError) :
    GRes JSValue × List VError :=
  match v with
  | .varr items =>
    if items.length = ss.length then
      match diagTup ss items 0 p errs with
      | (.raise m, e1) => (.raise m, e1)
      | (.ok _, e1) => (.fail, e1)
      | (.fail, e1) => (.fail, e1)
    else
      (.fail, pushError p errs
        ("Expected array of length " ++ toString ss.length ++
          ", got array of length " ++ toString items.length))
  | _ => (.fail, pushError p errs ("Expected array, got " ++ getType v))
termination_by (sizeOf ss, 2)

/-- The context-supplied fail branch of the object validator (part_001 lines
87-92 and 115-131): re-validate every declared field with sub-contexts, then
in strict mode push the aggregate unrecognized-keys error. -/
def spObjFail (shape : List (String × SchemaD)) (strict : Bool) (v : JSValue)
    (p : EPath) (errs : List VError) : GRes JSValue × List VError :=
  match v with
  | .vobj fields =>
    match diagObj shape fields p errs with
    | (.raise m, e1) => (.raise m, e1)
    | (.ok _, e1) =>
      if strict && !(unrecognizedKeys shape fields).isEmpty then
        (.fail, pushError p e1
          ("Unrecognized keys: " ++ String.intercalate commaSep (unrecognizedKeys shape fields)))
      else (.fail, e1)
    | (.fail, e1) =>
      if strict && !(unrecognizedKeys shape fields).isEmpty then
        (.fail, pushError p e1
          ("Unrecognized keys: " ++ String.intercalate commaSep (unrecognizedKeys shape fields)))
      else (.fail, e1)
  | _ => (.fail, pushError p errs ("Expected object, got " ++ getType v))
termination_by (sizeOf shape, 2)

/-- The context-supplied fail branch of the record validator (part_001 lines
289-297); the non-object arm is unreachable because that case throws in the
fast phase already (line 276). -/
def spRecFail (valS : SchemaD) (v : JSValue) (p : EPath) (errs : List VError) :
    GRes JSValue × List VError :=
  match v with
  | .vobj fields =>
    match diagRec valS fields p errs with
    | (.raise m, e1) => (.raise m, e1)
    | (.ok _, e1) => (.fail, e1)
    | (.fail, e1) => (.fail, e1)
  | _ => (.fail, errs)
termination_by (sizeOf valS, 3 + sizeOf v)

/-- Diagnostic re-walk of array items with sub-contexts
`{path: [...p, index], errors}` (part_001 lines 160-165). -/
def diagArr (item : SchemaD) : List JSValue → Nat → EPath → List VError → GRes Unit × List VError
  | [], _, _, errs => (.ok (), errs)
  | x :: xs, i, p, errs =>
    match sp item x (p ++ [.idx i]) errs with
    | (.raise m, e1) => (.raise m, e1)
    | (.ok _, e1) => diagArr item xs (i + 1) p e1
    | (.fail, e1) => diagArr item xs (i + 1) p e1
termination_by vs _ _ _ => (sizeOf item, 2 + sizeOf vs)

/-- Diagnostic re-walk of tuple positions (part_001 lines 352-357). -/
def diagTup : List SchemaD → List JSValue → Nat → EPath → List VError → GRes Unit × List VError
  | [], _, _, _, errs => (.ok (), errs)
  | s :: rest, vs, i, p, errs =>
    match sp s (headOr vs) (p ++ [.idx i]) errs with
    | (.raise m, e1) => (.raise m, e1)
    | (.ok _, e1) => diagTup rest vs.tail (i + 1) p e1
    | (.fail, e1) => diagTup rest vs.tail (i + 1) p e1
termination_by ss _ _ _ _ => (sizeOf ss, 1)

/-- Diagnostic re-walk of declared object fields (part_001 lines 116-118). -/
def diagObj : List (String × SchemaD) → List (String × JSValue) → EPath → List VError → GRes Unit × List VError
  | [], _, _, errs => (.ok (), errs)
  | (k, fs) :: rest, fields, p, errs =>
    match sp fs (lookupField fields k) (p ++ [.key k]) errs with
    | (.raise m, e1) => (.raise m, e1)
    | (.ok _, e1) => diagObj rest fields p e1
    | (.fail, e1) => diagObj rest fields p e1
termination_by shape _ _ _ => (sizeOf shape, 1)

/-- Diagnostic re-walk of record entries (part_001 lines 292-296). -/
def diagRec (valS : SchemaD) : List (String × JSValue) → EPath → List VError → GRes Unit × List VError
  | [], _, errs => (.ok (), errs)
  | (k, w) :: rest, p, errs =>
    match sp valS w (p ++ [.key k]) errs with
    | (.raise m, e1) => (.raise m, e1)
    | (.ok _, e1) => diagRec valS rest p e1
    | (.fail, e1) => diagRec valS rest p e1
termination_by fields _ _ => (sizeOf valS, 2 + sizeOf fields)

/-- Diagnostic re-walk of union branches at the same path, results ignored
(part_001 lines 383-387). -/
def diagUnion : List SchemaD → JSValue → EPath → List VError → GRes Unit × List VError
  | [], _, _, errs => (.ok (), errs)
  | b :: rest, v, p, errs =>
    match sp b v p errs with
    | (.raise m, e1) => (.raise m, e1)
    | (.ok _, e1) => diagUnion rest v p e1
    | (.fail, e1) => diagUnion rest v p e1
termination_by bs _ _ _ => (sizeOf bs, 1)

/-- Modelled from the spec: the discriminated-union validator with a context
(spec section 4.4): type check, then zero/one/many dispatch on the branches
declaring the input discriminator value. -/
def spDisc (dkey : String) (bs : List (JSValue × SchemaD)) (v : JSValue)
    (p : EPath) (errs : List VError) : GRes JSValue × List VError :=
  match v with
  | .vobj fields =>
    if countMatches (lookupField fields dkey) bs = 0 then
      (.fail, pushError (p ++ [.key dkey]) errs
        ("Invalid discriminator value " ++ inspect (lookupField fields dkey)))
    else if countMatches (lookupField fields dkey) bs = 1 then
      spDiscFirst bs (lookupField fields dkey) v p errs
    else
      (.fail, pushError (p ++ [.key dkey]) errs
        ("Ambiguous discriminator value " ++ inspect (lookupField fields dkey)))
  | _ => (.fail, pushError p errs ("Expected object, got " ++ getType v))
termination_by (sizeOf bs, 2)

/-- Modelled from the spec: context-carrying delegation to the first branch
declaring the discriminator value. -/
def spDiscFirst : List (JSValue × SchemaD) → JSValue → JSValue → EPath → List VError → GRes JSValue × List VError
  | [], _, _, _, errs => (.fail, errs)
  | (l, b) :: rest, dv, v, p, errs =>
    if scalarEq l dv then sp b v p errs else spDiscFirst rest dv v p errs
termination_by bs _ _ _ _ => (sizeOf bs, 1)

end

/-- `createStringSchema` (part_001 lines 307-317). -/
def createStringSchema : SchemaD := .stringS

/-- `createNumberSchema` (part_001 lines 261-271). -/
def createNumberSchema : SchemaD := .numberS

/-- `createBooleanSchema` (part_001 lines 182-192). -/
def createBooleanSchema : SchemaD := .booleanS

/-- `createBigIntSchema` (part_001 lines 170-180). -/
def createBigIntSchema : SchemaD := .bigintS

/-- `createNullSchema` (part_001 lines 245-255). -/
def createNullSchema : SchemaD := .nullS

/-- `createUndefinedSchema` (part_001 lines 363-373). -/
def createUndefinedSchema : SchemaD := .undefinedS

/-- `createUnknownSchema` (part_001 lines 392-396). -/
def createUnknownSchema : SchemaD := .unknownS

/-- `createUnionSchema` (part_001 lines 375-390). -/
def createUnionSchema (branches : List SchemaD) : SchemaD := .unionS branches

/-- `createLiteralSchema` (part_001 lines 218-231): an array of literals
builds a union of single-literal schemas. -/
def createLiteralSchema : JSValue → SchemaD
  | .varr items => .unionS (items.map SchemaD.literalS)
  | l => .literalS l

/-- `createArraySchema` (part_001 lines 137-168). -/
def createArraySchema (item : SchemaD) : SchemaD := .arrayS item

/-- `createTupleSchema` (part_001 lines 319-361). -/
def createTupleSchema (items : List SchemaD) : SchemaD := .tupleS items

/-- `createObjectSchema` (part_001 lines 233-235): a non-strict ObjectSchema. -/
def createObjectSchema (shape : List (String × SchemaD)) : SchemaD := .objectS shape false

/-- `createStrictObjectSchema` (part_001 lines 301-305): a strict ObjectSchema. -/
def createStrictObjectSchema (shape : List (String × SchemaD)) : SchemaD := .objectS shape true

/-- `createRecordSchema` (part_001 lines 273-299). -/
def createRecordSchema (valueSchema : SchemaD) : SchemaD := .recordS valueSchema

/-- `createOptionalSchema` (part_001 lines 237-239): union with the undefined
schema prepended. -/
def createOptionalSchema (s : SchemaD) : SchemaD := .unionS [.undefinedS, s]

/-- `createNullableSchema` (part_001 lines 241-243): union with the null
schema prepended. -/
def createNullableSchema (s : SchemaD) : SchemaD := .unionS [.nullS, s]

/-- `createNullishSchema` (part_001 lines 257-259): union with the null and
undefined schemas prepended. -/
def createNullishSchema (s : SchemaD) : SchemaD := .unionS [.nullS, .undefinedS, s]

/-- `createLazySchema` (part_001 lines 214-216), with the thunk represented
by the schema it returns. -/
def createLazySchema (inner : SchemaD) : SchemaD := .lazyS inner

/-- First binding of a key in an association list (used for shape lookup by
the spec-modelled discriminated union). -/
def lookupAssoc : List (String × α) → String → Option α
  | [], _ => none
  | (k, a) :: rest, key => if k = key then some a else lookupAssoc rest key

/-- The literal discriminator value an object-schema branch declares for a
key, when it declares one (spec section 4.4; modelled from the spec). -/
def declaredLiteral (dkey : String) : SchemaD → Option JSValue
  | .objectS shape _ =>
    match lookupAssoc shape dkey with
    | some (.literalS l) => some l
    | _ => none
  | _ => none

/-- Modelled from the spec: `discriminatedUnion(discriminatorKey,
branchSchemas)` (spec section 4.4).  The source files do not contain this
constructor; per the spec it requires a non-null non-array object, determines
the branches declaring the input discriminator value as their literal, and
fails with `Invalid discriminator value` on zero matches, fails with
`Ambiguous discriminator value` on two or more, and otherwise delegates full
validation to the single matching branch. -/
def discriminatedUnion (dkey : String) (branches : List SchemaD) : SchemaD :=
  .discUnionS dkey
    (branches.filterMap (fun b => (declaredLiteral dkey b).map (fun l => (l, b))))

/-- The result of the public `safeParse` (part_001 lines 27-42): success, a
structured failure, or (unmodelled in the source signature but possible, see
the record validator) a thrown exception. -/
inductive SafeParseResult where
  | success (data : JSValue)
  | failure (message : String) (errors : List VError)
  | thrown (msg : String)
  deriving Repr

/-- JS rendering of one path entry inside `path.join(sep)`. -/
def entryToString : PathEntry → String
  | .key s => s
  | .idx n => toString n

/-- `e.path.join(slash)` of the message synthesis. -/
def pathJoin (p : EPath) : String :=
  String.intercalate slashSep (p.map entryToString)

/-- One error summary inside the aggregate message (part_001 line 38). -/
def fmtError (e : VError) : String :=
  e.message ++ " (at path /" ++ pathJoin e.path ++ ")"

/-- The aggregate failure message (part_001 lines 37-39). -/
def mkMessage (errs : List VError) : String :=
  "Validation failed: " ++ String.intercalate commaSep (errs.map fmtError)

/-- Embeds `Schema.safeParse` (part_001 lines 27-42): allocates a fresh
context `{path: [], errors: []}`, runs the validation function with it, and
on failure synthesizes the aggregate message.  A JS exception escaping the
validation function escapes `safeParse` as well (`thrown`). -/
def safeParse (s : SchemaD) (v : JSValue) : SafeParseResult :=
  match sp s v [] [] with
  | (.ok d, _) => .success d
  | (.fail, errs) => .failure (mkMessage errs) errs
  | (.raise m, _) => .thrown m

/-- The result of the public `parse`: the typed value or a raised exception
message (its own `throw new Error(result.message)`, or an exception escaping
the validation function). -/
inductive ParseResult where
  | ok (data : JSValue)
  | threw (msg : String)
  deriving Repr

/-- Embeds `Schema.parse` (part_001 lines 19-25). -/
def parse (s : SchemaD) (v : JSValue) : ParseResult :=
  match safeParse s v with
  | .success d => .ok d
  | .failure m _ => .threw m
  | .thrown m => .threw m

/-- Embeds `Schema.internalSafeParse` (part_001 lines 44-46): the optional
context is `none` or a pair of a path and the current shared error list; the
returned list is that error list after the call (unchanged when no context is
supplied, since the source then has no reference to it). -/
def spOpt (s : SchemaD) (v : JSValue) : Option (EPath × List VError) → GRes JSValue × List VError
  | none => (fastP s v, [])
  | some (p, errs) => sp s v p errs

/-- Character-list prefix test (for the substring checks of the testable
properties). -/
def startsWithL : List Char → List Char → Bool
  | _, [] => true
  | [], _ :: _ => false
  | c :: cs, d :: ds => if c = d then startsWithL cs ds else false

/-- Character-list substring test. -/
def hasSubL : List Char → List Char → Bool
  | l, pat =>
    if startsWithL l pat then true
    else
      match l with
      | [] => false
      | _ :: cs => hasSubL cs pat

/-- String containment, used to state "message contains ..." properties. -/
def containsSub (s pat : String) : Bool := hasSubL s.data pat.data

def circleSchema : SchemaD :=
  createObjectSchema
    [("kind", createLiteralSchema (.vstr "circle")), ("radius", createNumberSchema)]

def squareSchema : SchemaD :=
  createObjectSchema
    [("kind", createLiteralSchema (.vstr "square")), ("size", createNumberSchema)]

def shapeSchema : SchemaD := discriminatedUnion "kind" [circleSchema, squareSchema]

def sameSchemaA : SchemaD :=
  createObjectSchema
    [("kind", createLiteralSchema (.vstr "same")), ("a", createNumberSchema)]

def sameSchemaB : SchemaD :=
  createObjectSchema
    [("kind", createLiteralSchema (.vstr "same")), ("b", createStringSchema)]

def ambiguousSchema : SchemaD := discriminatedUnion "kind" [sameSchemaA, sameSchemaB]


/-- Schema of the nested-path example of the spec: an object whose `a` field
is an object whose `b` field is an object with a numeric `c` field. -/
def c6Schema : SchemaD :=
  createObjectSchema
    [("a", createObjectSchema [("b", createObjectSchema [("c", createNumberSchema)])])]

/-- Input of the nested-path example: `c` holds a string. -/
def c6Input : JSValue :=
  .vobj [("a", .vobj [("b", .vobj [("c", .vstr "x")])])]

/-- A transform schema whose function is not the identity on its own output:
`number().transform(() => "x")`. -/
def tEx : SchemaD := .transformS .numberS (fun _ => Except.ok (.vstr "x"))

/-- First union branch: a strict object with an empty-shaped strict `a`. -/
def uExA : SchemaD := .objectS [("a", .objectS [] true)] false

/-- Second union branch: a non-strict empty-shaped `a` plus a numeric `b`. -/
def uExB : SchemaD := .objectS [("a", .objectS [] false), ("b", .numberS)] false

/-- A union whose branch choice differs between an input and its parse. -/
def uEx : SchemaD := .unionS [uExA, uExB]

/-- Input taken by the second union branch (the first rejects the extra key
inside `a`). -/
def uIn : JSValue := .vobj [("a", .vobj [("x", .vnum 1)]), ("b", .vnum 2)]

/-- First-parse result of `uEx` on `uIn` (second branch: `a` stripped, `b`
kept). -/
def uR : JSValue := .vobj [("a", .vobj []), ("b", .vnum 2)]

/-- Second-parse result of `uEx` on `uR` (now the first branch accepts and
drops `b`). -/
def uW : JSValue := .vobj [("a", .vobj [])]

/-- Schema of the C10 counterexample: a failing first field followed by a
bare record field. -/
def c10S : SchemaD := .objectS [("a", .numberS), ("b", .recordS .numberS)] false

/-- Input of the C10 counterexample: `a` fails the fast pass before the
record field runs; the diagnostic pass then reaches `b` and throws. -/
def c10V : JSValue := .vobj [("a", .vstr "x"), ("b", .vnull)]

theorem diagArr_append (item : SchemaD)
    (ih : ∀ x p e, ∃ t, (sp item x p e).2 = e ++ t) :
    ∀ (vs : List JSValue) (i : Nat) (p : EPath) (errs : List VError),
      ∃ t, (diagArr item vs i p errs).2 = errs ++ t := by
  intro vs
  induction vs with
  | nil => intro i p errs; exact ⟨[], by simp [diagArr]⟩
  | cons x xs ihl =>
    intro i p errs
    obtain ⟨t1, ht1⟩ := ih x (p ++ [.idx i]) errs
    rcases h : sp item x (p ++ [.idx i]) errs with ⟨r, e1⟩
    rw [h] at ht1
    simp only at ht1
    subst ht1
    cases r with
    | raise m => exact ⟨t1, by simp only [diagArr]; rw [h]⟩
    | ok d =>
      obtain ⟨t2, ht2⟩ := ihl (i + 1) p (errs ++ t1)
      exact ⟨t1 ++ t2, by simp only [diagArr]; rw [h]; simp [ht2]⟩
    | fail =>
      obtain ⟨t2, ht2⟩ := ihl (i + 1) p (errs ++ t1)
      exact ⟨t1 ++ t2, by simp only [diagArr]; rw [h]; simp [ht2]⟩

theorem diagTup_append :
    ∀ (ss : List SchemaD),
      (∀ s2 ∈ ss, ∀ x p e, ∃ t, (sp s2 x p e).2 = e ++ t) →
    ∀ (vs : List JSValue) (i : Nat) (p : EPath) (errs : List VError),
      ∃ t, (diagTup ss vs i p errs).2 = errs ++ t := by
  intro ss
  induction ss with
  | nil => intro _ vs i p errs; exact ⟨[], by simp [diagTup]⟩
  | cons s2 rest ihl =>
    intro ih vs i p errs
    obtain ⟨t1, ht1⟩ := ih s2 (by simp) (headOr vs) (p ++ [.idx i]) errs
    have ihrest : ∀ s3 ∈ rest, ∀ x p e, ∃ t, (sp s3 x p e).2 = e ++ t :=
      fun s3 hs3 => ih s3 (by simp [hs3])
    rcases h : sp s2 (headOr vs) (p ++ [.idx i]) errs with ⟨r, e1⟩
    rw [h] at ht1
    simp only at ht1
    subst ht1
    cases r with
    | raise m => exact ⟨t1, by simp only [diagTup]; rw [h]⟩
    | ok d =>
      obtain ⟨t2, ht2⟩ := ihl ihrest vs.tail (i + 1) p (errs ++ t1)
      exact ⟨t1 ++ t2, by simp only [diagTup]; rw [h]; simp [ht2]⟩
    | fail =>
      obtain ⟨t2, ht2⟩ := ihl ihrest vs.tail (i + 1) p (errs ++ t1)
      exact ⟨t1 ++ t2, by simp only [diagTup]; rw [h]; simp [ht2]⟩

theorem diagObj_append :
    ∀ (shape : List (String × SchemaD)),
      (∀ q ∈ shape, ∀ x p e, ∃ t, (sp q.2 x p e).2 = e ++ t) →
    ∀ (fields : List (String × JSValue)) (p : EPath) (errs : List VError),
      ∃ t, (diagObj shape fields p errs).2 = errs ++ t := by
  intro shape
  induction shape with
  | nil => intro _ fields p errs; exact ⟨[], by simp [diagObj]⟩
  | cons q rest ihl =>
    intro ih fields p errs
    rcases q with ⟨k, fs⟩
    obtain ⟨t1, ht1⟩ := ih (k, fs) (by simp) (lookupField fields k) (p ++ [.key k]) errs
    have ihrest : ∀ q ∈ rest, ∀ x p e, ∃ t, (sp q.2 x p e).2 = e ++ t :=
      fun q hq => ih q (by simp [hq])
    rcases h : sp fs (lookupField fields k) (p ++ [.key k]) errs with ⟨r, e1⟩
    rw [h] at ht1
    simp only at ht1
    subst ht1
    cases r with
    | raise m => exact ⟨t1, by simp only [diagObj]; rw [h]⟩
    | ok d =>
      obtain ⟨t2, ht2⟩ := ihl ihrest fields p (errs ++ t1)
      exact ⟨t1 ++ t2, by simp only [diagObj]; rw [h]; simp [ht2]⟩
    | fail =>
      obtain ⟨t2, ht2⟩ := ihl ihrest fields p (errs ++ t1)
      exact ⟨t1 ++ t2, by simp only [diagObj]; rw [h]; simp [ht2]⟩

theorem diagRec_append (valS : SchemaD)
    (ih : ∀ x p e, ∃ t, (sp valS x p e).2 = e ++ t) :
    ∀ (fields : List (String × JSValue)) (p : EPath) (errs : List VError),
      ∃ t, (diagRec valS fields p errs).2 = errs ++ t := by
  intro fields
  induction fields with
  | nil => intro p errs; exact ⟨[], by simp [diagRec]⟩
  | cons f rest ihl =>
    intro p errs
    rcases f with ⟨k, w⟩
    obtain ⟨t1, ht1⟩ := ih w (p ++ [.key k]) errs
    rcases h : sp valS w (p ++ [.key k]) errs with ⟨r, e1⟩
    rw [h] at ht1
    simp only at ht1
    subst ht1
    cases r with
    | raise m => exact ⟨t1, by simp only [diagRec]; rw [h]⟩
    | ok d =>
      obtain ⟨t2, ht2⟩ := ihl p (errs ++ t1)
      exact ⟨t1 ++ t2, by simp only [diagRec]; rw [h]; simp [ht2]⟩
    | fail =>
      obtain ⟨t2, ht2⟩ := ihl p (errs ++ t1)
      exact ⟨t1 ++ t2, by simp only [diagRec]; rw [h]; simp [ht2]⟩

theorem diagUnion_append :
    ∀ (bs : List SchemaD),
      (∀ b ∈ bs, ∀ x p e, ∃ t, (sp b x p e).2 = e ++ t) →
    ∀ (v : JSValue) (p : EPath) (errs : List VError),
      ∃ t, (diagUnion bs v p errs).2 = errs ++ t := by
  intro bs
  induction bs with
  | nil => intro _ v p errs; exact ⟨[], by simp [diagUnion]⟩
  | cons b rest ihl =>
    intro ih v p errs
    obtain ⟨t1, ht1⟩ := ih b (by simp) v p errs
    have ihrest : ∀ b ∈ rest, ∀ x p e, ∃ t, (sp b x p e).2 = e ++ t :=
      fun b hb => ih b (by simp [hb])
    rcases h : sp b v p errs with ⟨r, e1⟩
    rw [h] at ht1
    simp only at ht1
    subst ht1
    cases r with
    | raise m => exact ⟨t1, by simp only [diagUnion]; rw [h]⟩
    | ok d =>
      obtain ⟨t2, ht2⟩ := ihl ihrest v p (errs ++ t1)
      exact ⟨t1 ++ t2, by simp only [diagUnion]; rw [h]; simp [ht2]⟩
    | fail =>
      obtain ⟨t2, ht2⟩ := ihl ihrest v p (errs ++ t1)
      exact ⟨t1 ++ t2, by simp only [diagUnion]; rw [h]; simp [ht2]⟩

theorem spDiscFirst_append :
    ∀ (bs : List (JSValue × SchemaD)),
      (∀ q ∈ bs, ∀ x p e, ∃ t, (sp q.2 x p e).2 = e ++ t) →
    ∀ (dv v : JSValue) (p : EPath) (errs : List VError),
      ∃ t, (spDiscFirst bs dv v p errs).2 = errs ++ t := by
  intro bs
  induction bs with
  | nil => intro _ dv v p errs; exact ⟨[], by simp [spDiscFirst]⟩
  | cons q rest ihl =>
    intro ih dv v p errs
    rcases q with ⟨l, b⟩
    by_cases hl : scalarEq l dv = true
    · obtain ⟨t1, ht1⟩ := ih (l, b) (by simp) v p errs
      exact ⟨t1, by simp only [spDiscFirst]; rw [if_pos hl]; exact ht1⟩
    · have ihrest : ∀ q ∈ rest, ∀ x p e, ∃ t, (sp q.2 x p e).2 = e ++ t :=
        fun q hq => ih q (by simp [hq])
      obtain ⟨t1, ht1⟩ := ihl ihrest dv v p errs
      exact ⟨t1, by simp only [spDiscFirst]; rw [if_neg hl]; exact ht1⟩

theorem exists_self (errs : List VError) : ∃ t, errs = errs ++ t := ⟨[], by simp⟩

theorem exists_push (p : EPath) (msg : String) (errs : List VError) :
    ∃ t, pushError p errs msg = errs ++ t := ⟨[⟨p, msg⟩], rfl⟩

theorem exists_append (errs t : List VError) : ∃ t2, errs ++ t = errs ++ t2 := ⟨t, rfl⟩

theorem exists_append_push (errs t : List VError) (p : EPath) (msg : String) :
    ∃ t2, pushError p (errs ++ t) msg = errs ++ t2 :=
  ⟨t ++ [⟨p, msg⟩], by simp [pushError]⟩

theorem sizeOf_lt_of_mem_snd [SizeOf α] {q : α × SchemaD} {l : List (α × SchemaD)}
    (h : q ∈ l) : sizeOf q.2 < sizeOf l := by
  have h1 := List.sizeOf_lt_of_mem h
  cases q with | mk a b => simp at h1 ⊢; omega

theorem sp_errs_append_aux (n : Nat) :
    ∀ (s : SchemaD), sizeOf s < n →
    ∀ (v : JSValue) (p : EPath) (errs : List VError),
      ∃ t, (sp s v p errs).2 = errs ++ t := by
  induction n with
  | zero => intro s h; omega
  | succ n ihn =>
    intro s hs v p errs
    cases s with
    | stringS =>
      rcases hf : fastP .stringS v with d | _ | m <;> simp only [sp, hf]
      · exact exists_self _
      · exact exists_push _ _ _
      · exact exists_self _
    | numberS =>
      rcases hf : fastP .numberS v with d | _ | m <;> simp only [sp, hf]
      · exact exists_self _
      · exact exists_push _ _ _
      · exact exists_self _
    | booleanS =>
      rcases hf : fastP .booleanS v with d | _ | m <;> simp only [sp, hf]
      · exact exists_self _
      · exact exists_push _ _ _
      · exact exists_self _
    | bigintS =>
      rcases hf : fastP .bigintS v with d | _ | m <;> simp only [sp, hf]
      · exact exists_self _
      · exact exists_push _ _ _
      · exact exists_self _
    | nullS =>
      rcases hf : fastP .nullS v with d | _ | m <;> simp only [sp, hf]
      · exact exists_self _
      · exact exists_push _ _ _
      · exact exists_self _
    | undefinedS =>
      rcases hf : fastP .undefinedS v with d | _ | m <;> simp only [sp, hf]
      · exact exists_self _
      · exact exists_push _ _ _
      · exact exists_self _
    | unknownS => simp only [sp]; exact exists_self _
    | literalS lit =>
      rcases hf : fastP (.literalS lit) v with d | _ | m <;> simp only [sp, hf]
      · exact exists_self _
      · exact exists_push _ _ _
      · exact exists_self _
    | arrayS item =>
      have ih : ∀ x p2 e2, ∃ t, (sp item x p2 e2).2 = e2 ++ t :=
        fun x p2 e2 => ihn item (by have h2 := hs; simp at h2; omega) x p2 e2
      rcases hf : fastP (.arrayS item) v with d | _ | m <;> simp only [sp, hf]
      · exact exists_self _
      · cases v with
        | varr items =>
          obtain ⟨t, ht⟩ := diagArr_append item ih items 0 p errs
          rcases hd : diagArr item items 0 p errs with ⟨r, e1⟩
          rw [hd] at ht; simp only at ht; subst ht
          cases r <;> simp only [spArrFail, hd] <;> exact exists_append _ _
        | vstr a => simp only [spArrFail]; exact exists_push _ _ _
        | vnum a => simp only [spArrFail]; exact exists_push _ _ _
        | vbool a => simp only [spArrFail]; exact exists_push _ _ _
        | vbigint a => simp only [spArrFail]; exact exists_push _ _ _
        | vnull => simp only [spArrFail]; exact exists_push _ _ _
        | vundef => simp only [spArrFail]; exact exists_push _ _ _
        | vobj fs => simp only [spArrFail]; exact exists_push _ _ _
      · exact exists_self _
    | tupleS ss =>
      have ih : ∀ s2 ∈ ss, ∀ x p2 e2, ∃ t, (sp s2 x p2 e2).2 = e2 ++ t :=
        fun s2 hs2 x p2 e2 => ihn s2
          (by have h2 := hs; simp at h2; have h3 := List.sizeOf_lt_of_mem hs2; omega)
          x p2 e2
      rcases hf : fastP (.tupleS ss) v with d | _ | m <;> simp only [sp, hf]
      · exact exists_self _
      · cases v with
        | varr items =>
          by_cases hlen : items.length = ss.length
          · obtain ⟨t, ht⟩ := diagTup_append ss ih items 0 p errs
            rcases hd : diagTup ss items 0 p errs with ⟨r, e1⟩
            rw [hd] at ht; simp only at ht; subst ht
            cases r <;> simp only [spTupFail, hlen, if_pos, hd] <;> exact exists_append _ _
          · simp only [spTupFail]
            rw [if_neg hlen]
            exact exists_push _ _ _
        | vstr a => simp only [spTupFail]; exact exists_push _ _ _
        | vnum a => simp only [spTupFail]; exact exists_push _ _ _
        | vbool a => simp only [spTupFail]; exact exists_push _ _ _
        | vbigint a => simp only [spTupFail]; exact exists_push _ _ _
        | vnull => simp only [spTupFail]; exact exists_push _ _ _
        | vundef => simp only [spTupFail]; exact exists_push _ _ _
        | vobj fs => simp only [spTupFail]; exact exists_push _ _ _
      · exact exists_self _
    | objectS shape strict =>
      have ih : ∀ q ∈ shape, ∀ x p2 e2, ∃ t, (sp q.2 x p2 e2).2 = e2 ++ t :=
        fun q hq x p2 e2 => ihn q.2
          (by have h2 := hs; simp at h2; have h3 := sizeOf_lt_of_mem_snd hq; omega)
          x p2 e2
      rcases hf : fastP (.objectS shape strict) v with d | _ | m <;> simp only [sp, hf]
      · exact exists_self _
      · cases v with
        | vobj fields =>
          obtain ⟨t, ht⟩ := diagObj_append shape ih fields p errs
          rcases hd : diagObj shape fields p errs with ⟨r, e1⟩
          rw [hd] at ht; simp only at ht; subst ht
          cases r with
          | raise m => simp only [spObjFail, hd]; exact exists_append _ _
          | ok u =>
            simp only [spObjFail, hd]
            by_cases hst : (strict && !(unrecognizedKeys shape fields).isEmpty) = true
            · rw [if_pos hst]; exact exists_append_push _ _ _ _
            · rw [if_neg hst]; exact exists_append _ _
          | fail =>
            simp only [spObjFail, hd]
            by_cases hst : (strict && !(unrecognizedKeys shape fields).isEmpty) = true
            · rw [if_pos hst]; exact exists_append_push _ _ _ _
            · rw [if_neg hst]; exact exists_append _ _
        | vstr a => simp only [spObjFail]; exact exists_push _ _ _
        | vnum a => simp only [spObjFail]; exact exists_push _ _ _
        | vbool a => simp only [spObjFail]; exact exists_push _ _ _
        | vbigint a => simp only [spObjFail]; exact exists_push _ _ _
        | vnull => simp only [spObjFail]; exact exists_push _ _ _
        | vundef => simp only [spObjFail]; exact exists_push _ _ _
        | varr a => simp only [spObjFail]; exact exists_push _ _ _
      · exact exists_self _
    | recordS valS =>
      have ih : ∀ x p2 e2, ∃ t, (sp valS x p2 e2).2 = e2 ++ t :=
        fun x p2 e2 => ihn valS (by have h2 := hs; simp at h2; omega) x p2 e2
      rcases hf : fastP (.recordS valS) v with d | _ | m <;> simp only [sp, hf]
      · exact exists_self _
      · cases v with
        | vobj fields =>
          obtain ⟨t, ht⟩ := diagRec_append valS ih fields p errs
          rcases hd : diagRec valS fields p errs with ⟨r, e1⟩
          rw [hd] at ht; simp only at ht; subst ht
          cases r <;> simp only [spRecFail, hd] <;> exact exists_append _ _
        | vstr a => simp only [spRecFail]; exact exists_self _
        | vnum a => simp only [spRecFail]; exact exists_self _
        | vbool a => simp only [spRecFail]; exact exists_self _
        | vbigint a => simp only [spRecFail]; exact exists_self _
        | vnull => simp only [spRecFail]; exact exists_self _
        | vundef => simp only [spRecFail]; exact exists_self _
        | varr a => simp only [spRecFail]; exact exists_self _
      · exact exists_self _
    | unionS bs =>
      have ih : ∀ b ∈ bs, ∀ x p2 e2, ∃ t, (sp b x p2 e2).2 = e2 ++ t :=
        fun b hb x p2 e2 => ihn b
          (by have h2 := hs; simp at h2; have h3 := List.sizeOf_lt_of_mem hb; omega)
          x p2 e2
      rcases hf : fastP (.unionS bs) v with d | _ | m <;> simp only [sp, hf]
      · exact exists_self _
      · obtain ⟨t, ht⟩ := diagUnion_append bs ih v p errs
        rcases hd : diagUnion bs v p errs with ⟨r, e1⟩
        rw [hd] at ht; simp only at ht; subst ht
        cases r <;> simp only [hd] <;> exact exists_append _ _
      · exact exists_self _
    | transformS inner fn =>
      have ih : ∀ x p2 e2, ∃ t, (sp inner x p2 e2).2 = e2 ++ t :=
        fun x p2 e2 => ihn inner (by have h2 := hs; simp at h2; omega) x p2 e2
      obtain ⟨t1, ht1⟩ := ih v p errs
      rcases hi : sp inner v p errs with ⟨r, e1⟩
      rw [hi] at ht1; simp only at ht1; subst ht1
      cases r with
      | ok d =>
        rcases hfn : fn d with m | u
        · simp only [sp, hi, hfn]; exact exists_append_push _ _ _ _
        · simp only [sp, hi, hfn]; exact exists_append _ _
      | fail => simp only [sp, hi]; exact exists_append _ _
      | raise m => simp only [sp, hi]; exact exists_append_push _ _ _ _
    | lazyS inner =>
      simp only [sp]
      exact ihn inner (by have h2 := hs; simp at h2; omega) v p errs
    | discUnionS dkey bs =>
      have ih : ∀ q ∈ bs, ∀ x p2 e2, ∃ t, (sp q.2 x p2 e2).2 = e2 ++ t :=
        fun q hq x p2 e2 => ihn q.2
          (by have h2 := hs; simp at h2; have h3 := sizeOf_lt_of_mem_snd hq; omega)
          x p2 e2
      simp only [sp]
      cases v with
      | vobj fields =>
        by_cases h0 : countMatches (lookupField fields dkey) bs = 0
        · simp only [spDisc]; rw [if_pos h0]; exact exists_push _ _ _
        · by_cases h1 : countMatches (lookupField fields dkey) bs = 1
          · simp only [spDisc]; rw [if_neg h0, if_pos h1]
            exact spDiscFirst_append bs ih (lookupField fields dkey) (.vobj fields) p errs
          · simp only [spDisc]; rw [if_neg h0, if_neg h1]
            exact exists_push _ _ _
      | vstr a => simp only [spDisc]; exact exists_push _ _ _
      | vnum a => simp only [spDisc]; exact exists_push _ _ _
      | vbool a => simp only [spDisc]; exact exists_push _ _ _
      | vbigint a => simp only [spDisc]; exact exists_push _ _ _
      | vnull => simp only [spDisc]; exact exists_push _ _ _
      | vundef => simp only [spDisc]; exact exists_push _ _ _
      | varr a => simp only [spDisc]; exact exists_push _ _ _

/-- Supplying a context only appends error records: the error list coming out
of a contextual validation call extends the one passed in. -/
theorem sp_errs_append (s : SchemaD) (v : JSValue) (p : EPath) (errs : List VError) :
    ∃ t, (sp s v p errs).2 = errs ++ t :=
  sp_errs_append_aux (sizeOf s + 1) s (by omega) v p errs

theorem spArrFail_fst_ne_ok (item : SchemaD) (v : JSValue) (p : EPath)
    (errs : List VError) (d : JSValue) : (spArrFail item v p errs).1 ≠ GRes.ok d := by
  cases v with
  | varr items =>
    rcases hd : diagArr item items 0 p errs with ⟨r, e1⟩
    cases r <;> simp [spArrFail, hd]
  | vstr a => simp [spArrFail]
  | vnum a => simp [spArrFail]
  | vbool a => simp [spArrFail]
  | vbigint a => simp [spArrFail]
  | vnull => simp [spArrFail]
  | vundef => simp [spArrFail]
  | vobj fs => simp [spArrFail]

theorem spTupFail_fst_ne_ok (ss : List SchemaD) (v : JSValue) (p : EPath)
    (errs : List VError) (d : JSValue) : (spTupFail ss v p errs).1 ≠ GRes.ok d := by
  cases v with
  | varr items =>
    by_cases hlen : items.length = ss.length
    · simp only [spTupFail]
      rw [if_pos hlen]
      rcases hd : diagTup ss items 0 p errs with ⟨r, e1⟩
      cases r <;> simp [hd]
    · simp only [spTupFail]
      rw [if_neg hlen]
      simp
  | vstr a => simp [spTupFail]
  | vnum a => simp [spTupFail]
  | vbool a => simp [spTupFail]
  | vbigint a => simp [spTupFail]
  | vnull => simp [spTupFail]
  | vundef => simp [spTupFail]
  | vobj fs => simp [spTupFail]

theorem spObjFail_fst_ne_ok (shape : List (String × SchemaD)) (strict : Bool)
    (v : JSValue) (p : EPath) (errs : List VError) (d : JSValue) :
    (spObjFail shape strict v p errs).1 ≠ GRes.ok d := by
  cases v with
  | vobj fields =>
    simp only [spObjFail]
    rcases hd : diagObj shape fields p errs with ⟨r, e1⟩
    cases r with
    | raise m => simp [hd]
    | ok u =>
      by_cases hst : (strict && !(unrecognizedKeys shape fields).isEmpty) = true
      · simp only [hd]; rw [if_pos hst]; simp
      · simp only [hd]; rw [if_neg hst]; simp
    | fail =>
      by_cases hst : (strict && !(unrecognizedKeys shape fields).isEmpty) = true
      · simp only [hd]; rw [if_pos hst]; simp
      · simp only [hd]; rw [if_neg hst]; simp
  | vstr a => simp [spObjFail]
  | vnum a => simp [spObjFail]
  | vbool a => simp [spObjFail]
  | vbigint a => simp [spObjFail]
  | vnull => simp [spObjFail]
  | vundef => simp [spObjFail]
  | varr fs => simp [spObjFail]

theorem spRecFail_fst_ne_ok (valS : SchemaD) (v : JSValue) (p : EPath)
    (errs : List VError) (d : JSValue) : (spRecFail valS v p errs).1 ≠ GRes.ok d := by
  cases v with
  | vobj fields =>
    rcases hd : diagRec valS fields p errs with ⟨r, e1⟩
    cases r <;> simp [spRecFail, hd]
  | vstr a => simp [spRecFail]
  | vnum a => simp [spRecFail]
  | vbool a => simp [spRecFail]
  | vbigint a => simp [spRecFail]
  | vnull => simp [spRecFail]
  | vundef => simp [spRecFail]
  | varr fs => simp [spRecFail]

theorem discFirst_ok_iff :
    ∀ (bs : List (JSValue × SchemaD)) (dv v : JSValue) (p : EPath) (errs : List VError),
      (∀ q ∈ bs, ∀ d, ((sp q.2 v p errs).1 = GRes.ok d ↔ fastP q.2 v = GRes.ok d)) →
    ∀ d, ((spDiscFirst bs dv v p errs).1 = GRes.ok d ↔ fastDiscFirst bs dv v = GRes.ok d) := by
  intro bs
  induction bs with
  | nil => intro dv v p errs _ d; simp [spDiscFirst, fastDiscFirst]
  | cons q rest ihl =>
    intro dv v p errs ih d
    rcases q with ⟨l, b⟩
    by_cases hl : scalarEq l dv = true
    · simp only [spDiscFirst, fastDiscFirst]
      rw [if_pos hl, if_pos hl]
      exact ih (l, b) (by simp) d
    · simp only [spDiscFirst, fastDiscFirst]
      rw [if_neg hl, if_neg hl]
      exact ihl dv v p errs (fun q hq => ih q (by simp [hq])) d

theorem sp_ok_iff_aux (n : Nat) :
    ∀ (s : SchemaD), sizeOf s < n →
    ∀ (v : JSValue) (p : EPath) (errs : List VError) (d : JSValue),
      ((sp s v p errs).1 = GRes.ok d ↔ fastP s v = GRes.ok d) := by
  induction n with
  | zero => intro s h; omega
  | succ n ihn =>
    intro s hs v p errs d
    cases s with
    | stringS => rcases hf : fastP .stringS v with d2 | _ | m <;> simp [sp, hf]
    | numberS => rcases hf : fastP .numberS v with d2 | _ | m <;> simp [sp, hf]
    | booleanS => rcases hf : fastP .booleanS v with d2 | _ | m <;> simp [sp, hf]
    | bigintS => rcases hf : fastP .bigintS v with d2 | _ | m <;> simp [sp, hf]
    | nullS => rcases hf : fastP .nullS v with d2 | _ | m <;> simp [sp, hf]
    | undefinedS => rcases hf : fastP .undefinedS v with d2 | _ | m <;> simp [sp, hf]
    | unknownS => simp [sp, fastP]
    | literalS lit => rcases hf : fastP (.literalS lit) v with d2 | _ | m <;> simp [sp, hf]
    | arrayS item =>
      rcases hf : fastP (.arrayS item) v with d2 | _ | m <;>
        simp [sp, hf, spArrFail_fst_ne_ok item v p errs d]
    | tupleS ss =>
      rcases hf : fastP (.tupleS ss) v with d2 | _ | m <;>
        simp [sp, hf, spTupFail_fst_ne_ok ss v p errs d]
    | objectS shape strict =>
      rcases hf : fastP (.objectS shape strict) v with d2 | _ | m <;>
        simp [sp, hf, spObjFail_fst_ne_ok shape strict v p errs d]
    | recordS valS =>
      rcases hf : fastP (.recordS valS) v with d2 | _ | m <;>
        simp [sp, hf, spRecFail_fst_ne_ok valS v p errs d]
    | unionS bs =>
      rcases hf : fastP (.unionS bs) v with d2 | _ | m
      · simp [sp, hf]
      · simp only [sp, hf]
        rcases hd : diagUnion bs v p errs with ⟨r, e1⟩
        cases r <;> simp [hd]
      · simp [sp, hf]
    | transformS inner fn =>
      have ihok : ∀ d2, ((sp inner v p errs).1 = GRes.ok d2 ↔ fastP inner v = GRes.ok d2) :=
        fun d2 => ihn inner (by have h2 := hs; simp at h2; omega) v p errs d2
      rcases hi : sp inner v p errs with ⟨r, e1⟩
      cases r with
      | ok d2 =>
        have hfi : fastP inner v = GRes.ok d2 := (ihok d2).mp (by rw [hi])
        rcases hfn : fn d2 with m | u <;> simp [sp, fastP, hi, hfi, hfn]
      | fail =>
        rcases hfp : fastP inner v with d2 | _ | m
        · exact absurd ((ihok d2).mpr hfp) (by rw [hi]; simp)
        · simp [sp, fastP, hi, hfp]
        · simp [sp, fastP, hi, hfp]
      | raise m =>
        rcases hfp : fastP inner v with d2 | _ | m2
        · exact absurd ((ihok d2).mpr hfp) (by rw [hi]; simp)
        · simp [sp, fastP, hi, hfp]
        · simp [sp, fastP, hi, hfp]
    | lazyS inner =>
      simp only [sp, fastP]
      exact ihn inner (by have h2 := hs; simp at h2; omega) v p errs d
    | discUnionS dkey bs =>
      have ih : ∀ q ∈ bs, ∀ d2, ((sp q.2 v p errs).1 = GRes.ok d2 ↔ fastP q.2 v = GRes.ok d2) :=
        fun q hq d2 => ihn q.2
          (by have h2 := hs; simp at h2; have h3 := sizeOf_lt_of_mem_snd hq; omega)
          v p errs d2
      simp only [sp]
      cases v with
      | vobj fields =>
        by_cases h0 : countMatches (lookupField fields dkey) bs = 0
        · have h1 : ¬ countMatches (lookupField fields dkey) bs = 1 := by omega
          simp only [spDisc, fastP]
          rw [if_pos h0, if_neg h1]
        · by_cases h1 : countMatches (lookupField fields dkey) bs = 1
          · simp only [spDisc, fastP]
            rw [if_neg h0, if_pos h1, if_pos h1]
            exact discFirst_ok_iff bs (lookupField fields dkey) (.vobj fields) p errs ih d
          · simp only [spDisc, fastP]
            rw [if_neg h0, if_neg h1, if_neg h1]
      | vstr a => simp [spDisc, fastP]
      | vnum a => simp [spDisc, fastP]
      | vbool a => simp [spDisc, fastP]
      | vbigint a => simp [spDisc, fastP]
      | vnull => simp [spDisc, fastP]
      | vundef => simp [spDisc, fastP]
      | varr a => simp [spDisc, fastP]

/-- The success verdict and parsed data of a validation call do not depend on
the supplied context: a contextual call returns `ok d` exactly when the
context-free fast pass does. -/
theorem sp_ok_iff (s : SchemaD) (v : JSValue) (p : EPath) (errs : List VError) (d : JSValue) :
    ((sp s v p errs).1 = GRes.ok d ↔ fastP s v = GRes.ok d) :=
  sp_ok_iff_aux (sizeOf s + 1) s (by omega) v p errs d

/-- Schemas in which the `record` constructor does not occur outside of a
`transform` (whose try/catch confines any exception).  The record validator
is the only construct in the source that throws from inside `safeParseFn`
(part_001 line 276). -/
inductive NoBareRecord : SchemaD → Prop
  | stringC : NoBareRecord .stringS
  | numberC : NoBareRecord .numberS
  | booleanC : NoBareRecord .booleanS
  | bigintC : NoBareRecord .bigintS
  | nullC : NoBareRecord .nullS
  | undefinedC : NoBareRecord .undefinedS
  | unknownC : NoBareRecord .unknownS
  | literalC (lit : JSValue) : NoBareRecord (.literalS lit)
  | arrayC {item : SchemaD} : NoBareRecord item → NoBareRecord (.arrayS item)
  | tupleC {ss : List SchemaD} : (∀ s ∈ ss, NoBareRecord s) → NoBareRecord (.tupleS ss)
  | objectC {shape : List (String × SchemaD)} {strict : Bool} :
      (∀ q ∈ shape, NoBareRecord q.2) → NoBareRecord (.objectS shape strict)
  | unionC {bs : List SchemaD} : (∀ b ∈ bs, NoBareRecord b) → NoBareRecord (.unionS bs)
  | transformC (inner : SchemaD) (fn : JSValue → Except String JSValue) :
      NoBareRecord (.transformS inner fn)
  | lazyC {inner : SchemaD} : NoBareRecord inner → NoBareRecord (.lazyS inner)
  | discUnionC {dkey : String} {bs : List (JSValue × SchemaD)} :
      (∀ q ∈ bs, NoBareRecord q.2) → NoBareRecord (.discUnionS dkey bs)

theorem fastArr_no_raise (item : SchemaD)
    (ih : ∀ x m, fastP item x ≠ GRes.raise m) :
    ∀ (vs : List JSValue) (m : String), fastArr item vs ≠ GRes.raise m := by
  intro vs
  induction vs with
  | nil => intro m; simp [fastArr]
  | cons x xs ihl =>
    intro m h
    rw [fastArr] at h
    rcases hx : fastP item x with d | _ | m2 <;> rw [hx] at h
    · rcases hxs : fastArr item xs with ds | _ | m3 <;> simp [hxs] at h
      exact ihl m (h ▸ hxs)
    · simp at h
    · simp at h; exact ih x m (h ▸ hx)

theorem fastTup_no_raise :
    ∀ (ss : List SchemaD), (∀ s ∈ ss, ∀ x m, fastP s x ≠ GRes.raise m) →
    ∀ (vs : List JSValue) (m : String), fastTup ss vs ≠ GRes.raise m := by
  intro ss
  induction ss with
  | nil => intro _ vs m; simp [fastTup]
  | cons s2 rest ihl =>
    intro ih vs m h
    rw [fastTup] at h
    rcases hx : fastP s2 (headOr vs) with d | _ | m2 <;> rw [hx] at h
    · rcases hxs : fastTup rest vs.tail with ds | _ | m3 <;> simp [hxs] at h
      exact ihl (fun s3 hs3 => ih s3 (by simp [hs3])) vs.tail m (h ▸ hxs)
    · simp at h
    · simp at h; exact ih s2 (by simp) (headOr vs) m (h ▸ hx)

theorem fastObj_no_raise :
    ∀ (shape : List (String × SchemaD)), (∀ q ∈ shape, ∀ x m, fastP q.2 x ≠ GRes.raise m) →
    ∀ (fields : List (String × JSValue)) (m : String), fastObj shape fields ≠ GRes.raise m := by
  intro shape
  induction shape with
  | nil => intro _ fields m; simp [fastObj]
  | cons q rest ihl =>
    intro ih fields m h
    rcases q with ⟨k, fs⟩
    rw [fastObj] at h
    rcases hx : fastP fs (lookupField fields k) with d | _ | m2 <;> rw [hx] at h
    · rcases hxs : fastObj rest fields with ds | _ | m3 <;> simp [hxs] at h
      exact ihl (fun q hq => ih q (by simp [hq])) fields m (h ▸ hxs)
    · simp at h
    · simp at h; exact ih (k, fs) (by simp) (lookupField fields k) m (h ▸ hx)

theorem fastUnion_no_raise :
    ∀ (bs : List SchemaD), (∀ b ∈ bs, ∀ x m, fastP b x ≠ GRes.raise m) →
    ∀ (v : JSValue) (m : String), fastUnion bs v ≠ GRes.raise m := by
  intro bs
  induction bs with
  | nil => intro _ v m; simp [fastUnion]
  | cons b rest ihl =>
    intro ih v m h
    rw [fastUnion] at h
    rcases hx : fastP b v with d | _ | m2 <;> rw [hx] at h
    · simp at h
    · exact ihl (fun b2 hb2 => ih b2 (by simp [hb2])) v m h
    · simp at h; exact ih b (by simp) v m (h ▸ hx)

theorem fastDiscFirst_no_raise :
    ∀ (bs : List (JSValue × SchemaD)), (∀ q ∈ bs, ∀ x m, fastP q.2 x ≠ GRes.raise m) →
    ∀ (dv v : JSValue) (m : String), fastDiscFirst bs dv v ≠ GRes.raise m := by
  intro bs
  induction bs with
  | nil => intro _ dv v m; simp [fastDiscFirst]
  | cons q rest ihl =>
    intro ih dv v m h
    rcases q with ⟨l, b⟩
    rw [fastDiscFirst] at h
    by_cases hl : scalarEq l dv = true
    · rw [if_pos hl] at h; exact ih (l, b) (by simp) v m h
    · rw [if_neg hl] at h
      exact ihl (fun q hq => ih q (by simp [hq])) dv v m h

/-- Under `NoBareRecord`, the fast pass never throws. -/
theorem fastP_no_raise {s : SchemaD} (hs : NoBareRecord s) :
    ∀ (v : JSValue) (m : String), fastP s v ≠ GRes.raise m := by
  induction hs with
  | stringC => intro v m; cases v <;> simp [fastP]
  | numberC => intro v m; cases v <;> simp [fastP]
  | booleanC => intro v m; cases v <;> simp [fastP]
  | bigintC => intro v m; cases v <;> simp [fastP]
  | nullC => intro v m; cases v <;> simp [fastP]
  | undefinedC => intro v m; cases v <;> simp [fastP]
  | unknownC => intro v m; simp [fastP]
  | literalC lit =>
    intro v m
    by_cases hl : scalarEq v lit = true <;> simp [fastP, hl]
  | @arrayC item hitem ih =>
    intro v m h
    cases v with
    | varr items =>
      rcases ha : fastArr item items with ds | _ | m2 <;> simp [fastP, ha] at h
      exact fastArr_no_raise item ih items m (h ▸ ha)
    | vstr a => simp [fastP] at h
    | vnum a => simp [fastP] at h
    | vbool a => simp [fastP] at h
    | vbigint a => simp [fastP] at h
    | vnull => simp [fastP] at h
    | vundef => simp [fastP] at h
    | vobj fs => simp [fastP] at h
  | @tupleC ss hss ih =>
    intro v m h
    cases v with
    | varr items =>
      by_cases hlen : items.length = ss.length
      · rcases ha : fastTup ss items with ds | _ | m2 <;> simp [fastP, hlen, ha] at h
        exact fastTup_no_raise ss ih items m (h ▸ ha)
      · simp [fastP, hlen] at h
    | vstr a => simp [fastP] at h
    | vnum a => simp [fastP] at h
    | vbool a => simp [fastP] at h
    | vbigint a => simp [fastP] at h
    | vnull => simp [fastP] at h
    | vundef => simp [fastP] at h
    | vobj fs => simp [fastP] at h
  | @objectC shape strict hshape ih =>
    intro v m h
    cases v with
    | vobj fields =>
      rcases ha : fastObj shape fields with ds | _ | m2
      · simp only [fastP, ha] at h
        split at h <;> simp at h
      · simp [fastP, ha] at h
      · simp [fastP, ha] at h
        exact fastObj_no_raise shape ih fields m (h ▸ ha)
    | vstr a => simp [fastP] at h
    | vnum a => simp [fastP] at h
    | vbool a => simp [fastP] at h
    | vbigint a => simp [fastP] at h
    | vnull => simp [fastP] at h
    | vundef => simp [fastP] at h
    | varr fs => simp [fastP] at h
  | @unionC bs hbs ih =>
    intro v m h
    rw [fastP] at h
    exact fastUnion_no_raise bs ih v m h
  | transformC inner fn =>
    intro v m h
    rw [fastP] at h
    rcases hi : fastP inner v with d | _ | m2 <;> rw [hi] at h
    · rcases hfn : fn d with m3 | u <;> simp [hfn] at h
    · simp at h
    · simp at h
  | @lazyC inner hinner ih =>
    intro v m h
    rw [fastP] at h
    exact ih v m h
  | @discUnionC dkey bs hbs ih =>
    intro v m h
    cases v with
    | vobj fields =>
      by_cases hc : countMatches (lookupField fields dkey) bs = 1
      · simp only [fastP, hc, if_pos, if_true] at h
        exact fastDiscFirst_no_raise bs ih (lookupField fields dkey) (.vobj fields) m h
      · simp [fastP, hc] at h
    | vstr a => simp [fastP] at h
    | vnum a => simp [fastP] at h
    | vbool a => simp [fastP] at h
    | vbigint a => simp [fastP] at h
    | vnull => simp [fastP] at h
    | vundef => simp [fastP] at h
    | varr fs => simp [fastP] at h

theorem diagArr_no_raise (item : SchemaD)
    (ih : ∀ x p2 e2 m, (sp item x p2 e2).1 ≠ GRes.raise m) :
    ∀ (vs : List JSValue) (i : Nat) (p : EPath) (errs : List VError) (m : String),
      (diagArr item vs i p errs).1 ≠ GRes.raise m := by
  intro vs
  induction vs with
  | nil => intro i p errs m; simp [diagArr]
  | cons x xs ihl =>
    intro i p errs m h
    rcases hx : sp item x (p ++ [.idx i]) errs with ⟨r, e1⟩
    cases r with
    | raise m2 => exact ih x (p ++ [.idx i]) errs m2 (by rw [hx])
    | ok u =>
      simp only [diagArr, hx] at h
      exact ihl (i + 1) p e1 m h
    | fail =>
      simp only [diagArr, hx] at h
      exact ihl (i + 1) p e1 m h

theorem diagTup_no_raise :
    ∀ (ss : List SchemaD), (∀ s2 ∈ ss, ∀ x p2 e2 m, (sp s2 x p2 e2).1 ≠ GRes.raise m) →
    ∀ (vs : List JSValue) (i : Nat) (p : EPath) (errs : List VError) (m : String),
      (diagTup ss vs i p errs).1 ≠ GRes.raise m := by
  intro ss
  induction ss with
  | nil => intro _ vs i p errs m; simp [diagTup]
  | cons s2 rest ihl =>
    intro ih vs i p errs m h
    rcases hx : sp s2 (headOr vs) (p ++ [.idx i]) errs with ⟨r, e1⟩
    cases r with
    | raise m2 => exact ih s2 (by simp) (headOr vs) (p ++ [.idx i]) errs m2 (by rw [hx])
    | ok u =>
      simp only [diagTup, hx] at h
      exact ihl (fun s3 hs3 => ih s3 (by simp [hs3])) vs.tail (i + 1) p e1 m h
    | fail =>
      simp only [diagTup, hx] at h
      exact ihl (fun s3 hs3 => ih s3 (by simp [hs3])) vs.tail (i + 1) p e1 m h

theorem diagObj_no_raise :
    ∀ (shape : List (String × SchemaD)), (∀ q ∈ shape, ∀ x p2 e2 m, (sp q.2 x p2 e2).1 ≠ GRes.raise m) →
    ∀ (fields : List (String × JSValue)) (p : EPath) (errs : List VError) (m : String),
      (diagObj shape fields p errs).1 ≠ GRes.raise m := by
  intro shape
  induction shape with
  | nil => intro _ fields p errs m; simp [diagObj]
  | cons q rest ihl =>
    intro ih fields p errs m h
    rcases q with ⟨k, fs⟩
    rcases hx : sp fs (lookupField fields k) (p ++ [.key k]) errs with ⟨r, e1⟩
    cases r with
    | raise m2 => exact ih (k, fs) (by simp) (lookupField fields k) (p ++ [.key k]) errs m2 (by rw [hx])
    | ok u =>
      simp only [diagObj, hx] at h
      exact ihl (fun q hq => ih q (by simp [hq])) fields p e1 m h
    | fail =>
      simp only [diagObj, hx] at h
      exact ihl (fun q hq => ih q (by simp [hq])) fields p e1 m h

theorem diagUnion_no_raise :
    ∀ (bs : List SchemaD), (∀ b ∈ bs, ∀ x p2 e2 m, (sp b x p2 e2).1 ≠ GRes.raise m) →
    ∀ (v : JSValue) (p : EPath) (errs : List VError) (m : String),
      (diagUnion bs v p errs).1 ≠ GRes.raise m := by
  intro bs
  induction bs with
  | nil => intro _ v p errs m; simp [diagUnion]
  | cons b rest ihl =>
    intro ih v p errs m h
    rcases hx : sp b v p errs with ⟨r, e1⟩
    cases r with
    | raise m2 => exact ih b (by simp) v p errs m2 (by rw [hx])
    | ok u =>
      simp only [diagUnion, hx] at h
      exact ihl (fun b2 hb2 => ih b2 (by simp [hb2])) v p e1 m h
    | fail =>
      simp only [diagUnion, hx] at h
      exact ihl (fun b2 hb2 => ih b2 (by simp [hb2])) v p e1 m h

theorem spDiscFirst_no_raise :
    ∀ (bs : List (JSValue × SchemaD)), (∀ q ∈ bs, ∀ x p2 e2 m, (sp q.2 x p2 e2).1 ≠ GRes.raise m) →
    ∀ (dv v : JSValue) (p : EPath) (errs : List VError) (m : String),
      (spDiscFirst bs dv v p errs).1 ≠ GRes.raise m := by
  intro bs
  induction bs with
  | nil => intro _ dv v p errs m; simp [spDiscFirst]
  | cons q rest ihl =>
    intro ih dv v p errs m h
    rcases q with ⟨l, b⟩
    by_cases hl : scalarEq l dv = true
    · simp only [spDiscFirst, if_pos hl] at h
      exact ih (l, b) (by simp) v p errs m h
    · simp only [spDiscFirst, if_neg hl] at h
      exact ihl (fun q hq => ih q (by simp [hq])) dv v p errs m h

theorem spArrFail_no_raise (item : SchemaD)
    (ih : ∀ x p2 e2 m, (sp item x p2 e2).1 ≠ GRes.raise m)
    (v : JSValue) (p : EPath) (errs : List VError) (m : String) :
    (spArrFail item v p errs).1 ≠ GRes.raise m := by
  cases v with
  | varr items =>
    intro h
    rcases hd : diagArr item items 0 p errs with ⟨r, e1⟩
    cases r with
    | raise m2 => exact diagArr_no_raise item ih items 0 p errs m2 (by rw [hd])
    | ok u => simp [spArrFail, hd] at h
    | fail => simp [spArrFail, hd] at h
  | vstr a => simp [spArrFail]
  | vnum a => simp [spArrFail]
  | vbool a => simp [spArrFail]
  | vbigint a => simp [spArrFail]
  | vnull => simp [spArrFail]
  | vundef => simp [spArrFail]
  | vobj fs => simp [spArrFail]

theorem spTupFail_no_raise (ss : List SchemaD)
    (ih : ∀ s2 ∈ ss, ∀ x p2 e2 m, (sp s2 x p2 e2).1 ≠ GRes.raise m)
    (v : JSValue) (p : EPath) (errs : List VError) (m : String) :
    (spTupFail ss v p errs).1 ≠ GRes.raise m := by
  cases v with
  | varr items =>
    intro h
    by_cases hlen : items.length = ss.length
    · simp only [spTupFail, if_pos hlen] at h
      rcases hd : diagTup ss items 0 p errs with ⟨r, e1⟩
      cases r with
      | raise m2 => exact diagTup_no_raise ss ih items 0 p errs m2 (by rw [hd])
      | ok u => simp [hd] at h
      | fail => simp [hd] at h
    · simp only [spTupFail, if_neg hlen] at h
      simp at h
  | vstr a => simp [spTupFail]
  | vnum a => simp [spTupFail]
  | vbool a => simp [spTupFail]
  | vbigint a => simp [spTupFail]
  | vnull => simp [spTupFail]
  | vundef => simp [spTupFail]
  | vobj fs => simp [spTupFail]

theorem spObjFail_no_raise (shape : List (String × SchemaD)) (strict : Bool)
    (ih : ∀ q ∈ shape, ∀ x p2 e2 m, (sp q.2 x p2 e2).1 ≠ GRes.raise m)
    (v : JSValue) (p : EPath) (errs : List VError) (m : String) :
    (spObjFail shape strict v p errs).1 ≠ GRes.raise m := by
  cases v with
  | vobj fields =>
    intro h
    rcases hd : diagObj shape fields p errs with ⟨r, e1⟩
    cases r with
    | raise m2 => exact diagObj_no_raise shape ih fields p errs m2 (by rw [hd])
    | ok u =>
      simp only [spObjFail, hd] at h
      by_cases hst : (strict && !(unrecognizedKeys shape fields).isEmpty) = true
      · rw [if_pos hst] at h; simp at h
      · rw [if_neg hst] at h; simp at h
    | fail =>
      simp only [spObjFail, hd] at h
      by_cases hst : (strict && !(unrecognizedKeys shape fields).isEmpty) = true
      · rw [if_pos hst] at h; simp at h
      · rw [if_neg hst] at h; simp at h
  | vstr a => simp [spObjFail]
  | vnum a => simp [spObjFail]
  | vbool a => simp [spObjFail]
  | vbigint a => simp [spObjFail]
  | vnull => simp [spObjFail]
  | vundef => simp [spObjFail]
  | varr fs => simp [spObjFail]

/-- Under `NoBareRecord`, the contextual validation call never throws
either. -/
theorem sp_no_raise {s : SchemaD} (hs : NoBareRecord s) :
    ∀ (v : JSValue) (p : EPath) (errs : List VError) (m : String),
      (sp s v p errs).1 ≠ GRes.raise m := by
  induction hs with
  | stringC =>
    intro v p errs m h
    rcases hf : fastP .stringS v with d | _ | m2 <;> simp [sp, hf] at h
    exact fastP_no_raise .stringC v m2 hf
  | numberC =>
    intro v p errs m h
    rcases hf : fastP .numberS v with d | _ | m2 <;> simp [sp, hf] at h
    exact fastP_no_raise .numberC v m2 hf
  | booleanC =>
    intro v p errs m h
    rcases hf : fastP .booleanS v with d | _ | m2 <;> simp [sp, hf] at h
    exact fastP_no_raise .booleanC v m2 hf
  | bigintC =>
    intro v p errs m h
    rcases hf : fastP .bigintS v with d | _ | m2 <;> simp [sp, hf] at h
    exact fastP_no_raise .bigintC v m2 hf
  | nullC =>
    intro v p errs m h
    rcases hf : fastP .nullS v with d | _ | m2 <;> simp [sp, hf] at h
    exact fastP_no_raise .nullC v m2 hf
  | undefinedC =>
    intro v p errs m h
    rcases hf : fastP .undefinedS v with d | _ | m2 <;> simp [sp, hf] at h
    exact fastP_no_raise .undefinedC v m2 hf
  | unknownC => intro v p errs m; simp [sp]
  | literalC lit =>
    intro v p errs m h
    rcases hf : fastP (.literalS lit) v with d | _ | m2 <;> simp [sp, hf] at h
    exact fastP_no_raise (.literalC lit) v m2 hf
  | @arrayC item hitem ih =>
    intro v p errs m h
    rcases hf : fastP (.arrayS item) v with d | _ | m2
    · simp [sp, hf] at h
    · simp only [sp, hf] at h
      exact spArrFail_no_raise item ih v p errs m h
    · exact fastP_no_raise (.arrayC hitem) v m2 hf
  | @tupleC ss hss ih =>
    intro v p errs m h
    rcases hf : fastP (.tupleS ss) v with d | _ | m2
    · simp [sp, hf] at h
    · simp only [sp, hf] at h
      exact spTupFail_no_raise ss ih v p errs m h
    · exact fastP_no_raise (.tupleC hss) v m2 hf
  | @objectC shape strict hshape ih =>
    intro v p errs m h
    rcases hf : fastP (.objectS shape strict) v with d | _ | m2
    · simp [sp, hf] at h
    · simp only [sp, hf] at h
      exact spObjFail_no_raise shape strict ih v p errs m h
    · exact fastP_no_raise (.objectC hshape) v m2 hf
  | @unionC bs hbs ih =>
    intro v p errs m h
    rcases hf : fastP (.unionS bs) v with d | _ | m2
    · simp [sp, hf] at h
    · simp only [sp, hf] at h
      rcases hd : diagUnion bs v p errs with ⟨r, e1⟩
      cases r with
      | raise m2 => exact diagUnion_no_raise bs ih v p errs m2 (by rw [hd])
      | ok u => simp [hd] at h
      | fail => simp [hd] at h
    · exact fastP_no_raise (.unionC hbs) v m2 hf
  | transformC inner fn =>
    intro v p errs m h
    rcases hi : sp inner v p errs with ⟨r, e1⟩
    cases r with
    | ok d =>
      rcases hfn : fn d with m2 | u <;> simp [sp, hi, hfn] at h
    | fail => simp [sp, hi] at h
    | raise m2 => simp [sp, hi] at h
  | @lazyC inner hinner ih =>
    intro v p errs m h
    simp only [sp] at h
    exact ih v p errs m h
  | @discUnionC dkey bs hbs ih =>
    intro v p errs m h
    simp only [sp] at h
    cases v with
    | vobj fields =>
      by_cases h0 : countMatches (lookupField fields dkey) bs = 0
      · simp only [spDisc, if_pos h0] at h
        simp at h
      · by_cases h1 : countMatches (lookupField fields dkey) bs = 1
        · simp only [spDisc, if_neg h0, if_pos h1] at h
          exact spDiscFirst_no_raise bs ih (lookupField fields dkey) (.vobj fields) p errs m h
        · simp only [spDisc, if_neg h0, if_neg h1] at h
          simp at h
    | vstr a => simp [spDisc] at h
    | vnum a => simp [spDisc] at h
    | vbool a => simp [spDisc] at h
    | vbigint a => simp [spDisc] at h
    | vnull => simp [spDisc] at h
    | vundef => simp [spDisc] at h
    | varr fs => simp [spDisc] at h

/-- Schemas that contain no union over an empty branch list.  A `union([])`
fails while its diagnostic pass has no branch to report, which is the only
way a failing diagnostic pass can record nothing. -/
inductive NoEmptyUnion : SchemaD → Prop
  | stringC : NoEmptyUnion .stringS
  | numberC : NoEmptyUnion .numberS
  | booleanC : NoEmptyUnion .booleanS
  | bigintC : NoEmptyUnion .bigintS
  | nullC : NoEmptyUnion .nullS
  | undefinedC : NoEmptyUnion .undefinedS
  | unknownC : NoEmptyUnion .unknownS
  | literalC (lit : JSValue) : NoEmptyUnion (.literalS lit)
  | arrayC {item : SchemaD} : NoEmptyUnion item → NoEmptyUnion (.arrayS item)
  | tupleC {ss : List SchemaD} : (∀ s ∈ ss, NoEmptyUnion s) → NoEmptyUnion (.tupleS ss)
  | objectC {shape : List (String × SchemaD)} {strict : Bool} :
      (∀ q ∈ shape, NoEmptyUnion q.2) → NoEmptyUnion (.objectS shape strict)
  | recordC {valS : SchemaD} : NoEmptyUnion valS → NoEmptyUnion (.recordS valS)
  | unionC {bs : List SchemaD} : bs ≠ [] → (∀ b ∈ bs, NoEmptyUnion b) →
      NoEmptyUnion (.unionS bs)
  | transformC {inner : SchemaD} (fn : JSValue → Except String JSValue) :
      NoEmptyUnion inner → NoEmptyUnion (.transformS inner fn)
  | lazyC {inner : SchemaD} : NoEmptyUnion inner → NoEmptyUnion (.lazyS inner)
  | discUnionC {dkey : String} {bs : List (JSValue × SchemaD)} :
      (∀ q ∈ bs, NoEmptyUnion q.2) → NoEmptyUnion (.discUnionS dkey bs)

theorem sp_len_mono (s : SchemaD) (v : JSValue) (p : EPath) (errs : List VError) :
    errs.length ≤ (sp s v p errs).2.length := by
  obtain ⟨t, ht⟩ := sp_errs_append s v p errs
  simp [ht]

theorem diagArr_len_mono (item : SchemaD) (vs : List JSValue) (i : Nat) (p : EPath)
    (errs : List VError) : errs.length ≤ (diagArr item vs i p errs).2.length := by
  obtain ⟨t, ht⟩ := diagArr_append item (fun x p2 e2 => sp_errs_append item x p2 e2) vs i p errs
  simp [ht]

theorem diagTup_len_mono (ss : List SchemaD) (vs : List JSValue) (i : Nat) (p : EPath)
    (errs : List VError) : errs.length ≤ (diagTup ss vs i p errs).2.length := by
  obtain ⟨t, ht⟩ :=
    diagTup_append ss (fun s2 _ x p2 e2 => sp_errs_append s2 x p2 e2) vs i p errs
  simp [ht]

theorem diagObj_len_mono (shape : List (String × SchemaD)) (fields : List (String × JSValue))
    (p : EPath) (errs : List VError) : errs.length ≤ (diagObj shape fields p errs).2.length := by
  obtain ⟨t, ht⟩ :=
    diagObj_append shape (fun q _ x p2 e2 => sp_errs_append q.2 x p2 e2) fields p errs
  simp [ht]

theorem diagRec_len_mono (valS : SchemaD) (fields : List (String × JSValue))
    (p : EPath) (errs : List VError) : errs.length ≤ (diagRec valS fields p errs).2.length := by
  obtain ⟨t, ht⟩ := diagRec_append valS (fun x p2 e2 => sp_errs_append valS x p2 e2) fields p errs
  simp [ht]

theorem diagUnion_len_mono (bs : List SchemaD) (v : JSValue) (p : EPath)
    (errs : List VError) : errs.length ≤ (diagUnion bs v p errs).2.length := by
  obtain ⟨t, ht⟩ := diagUnion_append bs (fun b _ x p2 e2 => sp_errs_append b x p2 e2) v p errs
  simp [ht]

theorem diagArr_grow (item : SchemaD)
    (ihg : ∀ x p2 e2, (sp item x p2 e2).1 = GRes.fail → e2.length < (sp item x p2 e2).2.length) :
    ∀ (vs : List JSValue) (i : Nat) (p : EPath) (errs : List VError),
      fastArr item vs = GRes.fail →
      (∃ m, (diagArr item vs i p errs).1 = GRes.raise m) ∨
        errs.length < (diagArr item vs i p errs).2.length := by
  intro vs
  induction vs with
  | nil => intro i p errs hfail; simp [fastArr] at hfail
  | cons x xs ihl =>
    intro i p errs hfail
    rcases hx : fastP item x with d | _ | m2
    · rcases hxs2 : fastArr item xs with ds | _ | m3
      · simp [fastArr, hx, hxs2] at hfail
      · rcases hsp : sp item x (p ++ [.idx i]) errs with ⟨r, e1⟩
        have hmono : errs.length ≤ e1.length := by
          have h2 := sp_len_mono item x (p ++ [.idx i]) errs
          rw [hsp] at h2; simpa using h2
        cases r with
        | raise m3 => exact Or.inl ⟨m3, by simp [diagArr, hsp]⟩
        | ok u =>
          rcases ihl (i + 1) p e1 hxs2 with ⟨m3, hm⟩ | hgrow
          · exact Or.inl ⟨m3, by simp [diagArr, hsp, hm]⟩
          · right
            have heq : diagArr item (x :: xs) i p errs = diagArr item xs (i + 1) p e1 := by
              simp [diagArr, hsp]
            rw [heq]; omega
        | fail =>
          rcases ihl (i + 1) p e1 hxs2 with ⟨m3, hm⟩ | hgrow
          · exact Or.inl ⟨m3, by simp [diagArr, hsp, hm]⟩
          · right
            have heq : diagArr item (x :: xs) i p errs = diagArr item xs (i + 1) p e1 := by
              simp [diagArr, hsp]
            rw [heq]; omega
      · simp [fastArr, hx, hxs2] at hfail
    · rcases hsp : sp item x (p ++ [.idx i]) errs with ⟨r, e1⟩
      cases r with
      | raise m3 => exact Or.inl ⟨m3, by simp [diagArr, hsp]⟩
      | ok u =>
        exact absurd ((sp_ok_iff item x (p ++ [.idx i]) errs u).mp (by rw [hsp]))
          (by rw [hx]; simp)
      | fail =>
        right
        have hgrow : errs.length < e1.length := by
          have h2 := ihg x (p ++ [.idx i]) errs (by rw [hsp])
          rw [hsp] at h2; simpa using h2
        have hmono := diagArr_len_mono item xs (i + 1) p e1
        have heq : diagArr item (x :: xs) i p errs = diagArr item xs (i + 1) p e1 := by
          simp [diagArr, hsp]
        rw [heq]; omega
    · simp [fastArr, hx] at hfail

theorem diagTup_grow :
    ∀ (ss : List SchemaD),
      (∀ s2 ∈ ss, ∀ x p2 e2, (sp s2 x p2 e2).1 = GRes.fail → e2.length < (sp s2 x p2 e2).2.length) →
    ∀ (vs : List JSValue) (i : Nat) (p : EPath) (errs : List VError),
      fastTup ss vs = GRes.fail →
      (∃ m, (diagTup ss vs i p errs).1 = GRes.raise m) ∨
        errs.length < (diagTup ss vs i p errs).2.length := by
  intro ss
  induction ss with
  | nil => intro _ vs i p errs hfail; simp [fastTup] at hfail
  | cons s2 rest ihl =>
    intro ihg vs i p errs hfail
    have ihrest : ∀ s3 ∈ rest, ∀ x p2 e2,
        (sp s3 x p2 e2).1 = GRes.fail → e2.length < (sp s3 x p2 e2).2.length :=
      fun s3 hs3 => ihg s3 (by simp [hs3])
    rcases hx : fastP s2 (headOr vs) with d | _ | m2
    · rcases hxs2 : fastTup rest vs.tail with ds | _ | m3
      · simp [fastTup, hx, hxs2] at hfail
      · rcases hsp : sp s2 (headOr vs) (p ++ [.idx i]) errs with ⟨r, e1⟩
        have hmono : errs.length ≤ e1.length := by
          have h2 := sp_len_mono s2 (headOr vs) (p ++ [.idx i]) errs
          rw [hsp] at h2; simpa using h2
        cases r with
        | raise m3 => exact Or.inl ⟨m3, by simp [diagTup, hsp]⟩
        | ok u =>
          rcases ihl ihrest vs.tail (i + 1) p e1 hxs2 with ⟨m3, hm⟩ | hgrow
          · exact Or.inl ⟨m3, by simp [diagTup, hsp, hm]⟩
          · right
            have heq : diagTup (s2 :: rest) vs i p errs = diagTup rest vs.tail (i + 1) p e1 := by
              simp [diagTup, hsp]
            rw [heq]; omega
        | fail =>
          rcases ihl ihrest vs.tail (i + 1) p e1 hxs2 with ⟨m3, hm⟩ | hgrow
          · exact Or.inl ⟨m3, by simp [diagTup, hsp, hm]⟩
          · right
            have heq : diagTup (s2 :: rest) vs i p errs = diagTup rest vs.tail (i + 1) p e1 := by
              simp [diagTup, hsp]
            rw [heq]; omega
      · simp [fastTup, hx, hxs2] at hfail
    · rcases hsp : sp s2 (headOr vs) (p ++ [.idx i]) errs with ⟨r, e1⟩
      cases r with
      | raise m3 => exact Or.inl ⟨m3, by simp [diagTup, hsp]⟩
      | ok u =>
        exact absurd ((sp_ok_iff s2 (headOr vs) (p ++ [.idx i]) errs u).mp (by rw [hsp]))
          (by rw [hx]; simp)
      | fail =>
        right
        have hgrow : errs.length < e1.length := by
          have h2 := ihg s2 (by simp) (headOr vs) (p ++ [.idx i]) errs (by rw [hsp])
          rw [hsp] at h2; simpa using h2
        have hmono := diagTup_len_mono rest vs.tail (i + 1) p e1
        have heq : diagTup (s2 :: rest) vs i p errs = diagTup rest vs.tail (i + 1) p e1 := by
          simp [diagTup, hsp]
        rw [heq]; omega
    · simp [fastTup, hx] at hfail

theorem diagObj_grow :
    ∀ (shape : List (String × SchemaD)),
      (∀ q ∈ shape, ∀ x p2 e2, (sp q.2 x p2 e2).1 = GRes.fail → e2.length < (sp q.2 x p2 e2).2.length) →
    ∀ (fields : List (String × JSValue)) (p : EPath) (errs : List VError),
      fastObj shape fields = GRes.fail →
      (∃ m, (diagObj shape fields p errs).1 = GRes.raise m) ∨
        errs.length < (diagObj shape fields p errs).2.length := by
  intro shape
  induction shape with
  | nil => intro _ fields p errs hfail; simp [fastObj] at hfail
  | cons q rest ihl =>
    intro ihg fields p errs hfail
    rcases q with ⟨k, fs⟩
    have ihrest : ∀ q2 ∈ rest, ∀ x p2 e2,
        (sp q2.2 x p2 e2).1 = GRes.fail → e2.length < (sp q2.2 x p2 e2).2.length :=
      fun q2 hq2 => ihg q2 (by simp [hq2])
    rcases hx : fastP fs (lookupField fields k) with d | _ | m2
    · rcases hxs2 : fastObj rest fields with ds | _ | m3
      · simp [fastObj, hx, hxs2] at hfail
      · rcases hsp : sp fs (lookupField fields k) (p ++ [.key k]) errs with ⟨r, e1⟩
        have hmono : errs.length ≤ e1.length := by
          have h2 := sp_len_mono fs (lookupField fields k) (p ++ [.key k]) errs
          rw [hsp] at h2; simpa using h2
        cases r with
        | raise m3 => exact Or.inl ⟨m3, by simp [diagObj, hsp]⟩
        | ok u =>
          rcases ihl ihrest fields p e1 hxs2 with ⟨m3, hm⟩ | hgrow
          · exact Or.inl ⟨m3, by simp [diagObj, hsp, hm]⟩
          · right
            have heq : diagObj ((k, fs) :: rest) fields p errs = diagObj rest fields p e1 := by
              simp [diagObj, hsp]
            rw [heq]; omega
        | fail =>
          rcases ihl ihrest fields p e1 hxs2 with ⟨m3, hm⟩ | hgrow
          · exact Or.inl ⟨m3, by simp [diagObj, hsp, hm]⟩
          · right
            have heq : diagObj ((k, fs) :: rest) fields p errs = diagObj rest fields p e1 := by
              simp [diagObj, hsp]
            rw [heq]; omega
      · simp [fastObj, hx, hxs2] at hfail
    · rcases hsp : sp fs (lookupField fields k) (p ++ [.key k]) errs with ⟨r, e1⟩
      cases r with
      | raise m3 => exact Or.inl ⟨m3, by simp [diagObj, hsp]⟩
      | ok u =>
        exact absurd ((sp_ok_iff fs (lookupField fields k) (p ++ [.key k]) errs u).mp (by rw [hsp]))
          (by rw [hx]; simp)
      | fail =>
        right
        have hgrow : errs.length < e1.length := by
          have h2 := ihg (k, fs) (by simp) (lookupField fields k) (p ++ [.key k]) errs (by rw [hsp])
          rw [hsp] at h2; simpa using h2
        have hmono := diagObj_len_mono rest fields p e1
        have heq : diagObj ((k, fs) :: rest) fields p errs = diagObj rest fields p e1 := by
          simp [diagObj, hsp]
        rw [heq]; omega
    · simp [fastObj, hx] at hfail

theorem diagRec_grow (valS : SchemaD)
    (ihg : ∀ x p2 e2, (sp valS x p2 e2).1 = GRes.fail → e2.length < (sp valS x p2 e2).2.length) :
    ∀ (fields : List (String × JSValue)) (p : EPath) (errs : List VError),
      fastRec valS fields = GRes.fail →
      (∃ m, (diagRec valS fields p errs).1 = GRes.raise m) ∨
        errs.length < (diagRec valS fields p errs).2.length := by
  intro fields
  induction fields with
  | nil => intro p errs hfail; simp [fastRec] at hfail
  | cons f rest ihl =>
    intro p errs hfail
    rcases f with ⟨k, w⟩
    rcases hx : fastP valS w with d | _ | m2
    · rcases hxs2 : fastRec valS rest with ds | _ | m3
      · simp [fastRec, hx, hxs2] at hfail
      · rcases hsp : sp valS w (p ++ [.key k]) errs with ⟨r, e1⟩
        have hmono : errs.length ≤ e1.length := by
          have h2 := sp_len_mono valS w (p ++ [.key k]) errs
          rw [hsp] at h2; simpa using h2
        cases r with
        | raise m3 => exact Or.inl ⟨m3, by simp [diagRec, hsp]⟩
        | ok u =>
          rcases ihl p e1 hxs2 with ⟨m3, hm⟩ | hgrow
          · exact Or.inl ⟨m3, by simp [diagRec, hsp, hm]⟩
          · right
            have heq : diagRec valS ((k, w) :: rest) p errs = diagRec valS rest p e1 := by
              simp [diagRec, hsp]
            rw [heq]; omega
        | fail =>
          rcases ihl p e1 hxs2 with ⟨m3, hm⟩ | hgrow
          · exact Or.inl ⟨m3, by simp [diagRec, hsp, hm]⟩
          · right
            have heq : diagRec valS ((k, w) :: rest) p errs = diagRec valS rest p e1 := by
              simp [diagRec, hsp]
            rw [heq]; omega
      · simp [fastRec, hx, hxs2] at hfail
    · rcases hsp : sp valS w (p ++ [.key k]) errs with ⟨r, e1⟩
      cases r with
      | raise m3 => exact Or.inl ⟨m3, by simp [diagRec, hsp]⟩
      | ok u =>
        exact absurd ((sp_ok_iff valS w (p ++ [.key k]) errs u).mp (by rw [hsp]))
          (by rw [hx]; simp)
      | fail =>
        right
        have hgrow : errs.length < e1.length := by
          have h2 := ihg w (p ++ [.key k]) errs (by rw [hsp])
          rw [hsp] at h2; simpa using h2
        have hmono := diagRec_len_mono valS rest p e1
        have heq : diagRec valS ((k, w) :: rest) p errs = diagRec valS rest p e1 := by
          simp [diagRec, hsp]
        rw [heq]; omega
    · simp [fastRec, hx] at hfail

theorem diagUnion_grow :
    ∀ (bs : List SchemaD),
      (∀ b ∈ bs, ∀ x p2 e2, (sp b x p2 e2).1 = GRes.fail → e2.length < (sp b x p2 e2).2.length) →
      bs ≠ [] →
    ∀ (v : JSValue) (p : EPath) (errs : List VError),
      fastUnion bs v = GRes.fail →
      (∃ m, (diagUnion bs v p errs).1 = GRes.raise m) ∨
        errs.length < (diagUnion bs v p errs).2.length := by
  intro bs
  cases bs with
  | nil => intro _ hne; exact absurd rfl hne
  | cons b rest =>
    intro ihg _ v p errs hfail
    rcases hb : fastP b v with d | _ | m2
    · simp [fastUnion, hb] at hfail
    · rcases hsp : sp b v p errs with ⟨r, e1⟩
      cases r with
      | raise m3 => exact Or.inl ⟨m3, by simp [diagUnion, hsp]⟩
      | ok u =>
        exact absurd ((sp_ok_iff b v p errs u).mp (by rw [hsp])) (by rw [hb]; simp)
      | fail =>
        right
        have hgrow : errs.length < e1.length := by
          have h2 := ihg b (by simp) v p errs (by rw [hsp])
          rw [hsp] at h2; simpa using h2
        have hmono := diagUnion_len_mono rest v p e1
        have heq : diagUnion (b :: rest) v p errs = diagUnion rest v p e1 := by
          simp [diagUnion, hsp]
        rw [heq]; omega
    · simp [fastUnion, hb] at hfail

theorem diagObj_ok_no_raise :
    ∀ (shape : List (String × SchemaD)) (fields : List (String × JSValue))
      (ds : List (String × JSValue)) (p : EPath) (errs : List VError) (m : String),
      fastObj shape fields = GRes.ok ds →
      (diagObj shape fields p errs).1 ≠ GRes.raise m := by
  intro shape
  induction shape with
  | nil => intro fields ds p errs m _; simp [diagObj]
  | cons q rest ihl =>
    intro fields ds p errs m hok h
    rcases q with ⟨k, fs⟩
    rcases hx : fastP fs (lookupField fields k) with d | _ | m2
    · rcases hrest : fastObj rest fields with ds2 | _ | m3
      · have hsp1 : (sp fs (lookupField fields k) (p ++ [.key k]) errs).1 = GRes.ok d :=
          (sp_ok_iff fs (lookupField fields k) (p ++ [.key k]) errs d).mpr hx
        rcases hsp : sp fs (lookupField fields k) (p ++ [.key k]) errs with ⟨r, e1⟩
        rw [hsp] at hsp1; simp only at hsp1; subst hsp1
        simp only [diagObj, hsp] at h
        exact ihl fields ds2 p e1 m hrest h
      · simp [fastObj, hx, hrest] at hok
      · simp [fastObj, hx, hrest] at hok
    · simp [fastObj, hx] at hok
    · simp [fastObj, hx] at hok

theorem countMatches_one_mem {dv : JSValue} {bs : List (JSValue × SchemaD)}
    (h : countMatches dv bs = 1) : ∃ q ∈ bs, scalarEq q.1 dv = true := by
  unfold countMatches at h
  have hne : (bs.filter (fun b => scalarEq b.1 dv)) ≠ [] := by
    intro hnil; rw [hnil] at h; simp at h
  rcases List.exists_mem_of_ne_nil _ hne with ⟨q, hq⟩
  exact ⟨q, (List.mem_filter.mp hq).1, (List.mem_filter.mp hq).2⟩

theorem spDiscFirst_grow :
    ∀ (bs : List (JSValue × SchemaD)),
      (∀ q ∈ bs, ∀ x p2 e2, (sp q.2 x p2 e2).1 = GRes.fail → e2.length < (sp q.2 x p2 e2).2.length) →
    ∀ (dv v : JSValue) (p : EPath) (errs : List VError),
      (∃ q ∈ bs, scalarEq q.1 dv = true) →
      (spDiscFirst bs dv v p errs).1 = GRes.fail →
      errs.length < (spDiscFirst bs dv v p errs).2.length := by
  intro bs
  induction bs with
  | nil => intro _ dv v p errs hex; simp at hex
  | cons q rest ihl =>
    intro ihg dv v p errs hex h
    rcases q with ⟨l, b⟩
    by_cases hl : scalarEq l dv = true
    · simp only [spDiscFirst, if_pos hl] at h ⊢
      exact ihg (l, b) (by simp) v p errs h
    · simp only [spDiscFirst, if_neg hl] at h ⊢
      rcases hex with ⟨q2, hq2, hsc⟩
      rcases List.mem_cons.mp hq2 with heq | hmem
      · exfalso; rw [heq] at hsc; exact hl hsc
      · exact ihl (fun q3 hq3 => ihg q3 (by simp [hq3])) dv v p errs ⟨q2, hmem, hsc⟩ h

/-- Under `NoEmptyUnion`, a failing contextual validation call strictly grows
the error list. -/
theorem sp_fail_grows {s : SchemaD} (hs : NoEmptyUnion s) :
    ∀ (v : JSValue) (p : EPath) (errs : List VError),
      (sp s v p errs).1 = GRes.fail → errs.length < (sp s v p errs).2.length := by
  induction hs with
  | stringC =>
    intro v p errs h
    rcases hf : fastP .stringS v with d | _ | m
    · simp [sp, hf] at h
    · simp only [sp, hf, pushError, List.length_append, List.length_cons, List.length_nil]; omega
    · simp [sp, hf] at h
  | numberC =>
    intro v p errs h
    rcases hf : fastP .numberS v with d | _ | m
    · simp [sp, hf] at h
    · simp only [sp, hf, pushError, List.length_append, List.length_cons, List.length_nil]; omega
    · simp [sp, hf] at h
  | booleanC =>
    intro v p errs h
    rcases hf : fastP .booleanS v with d | _ | m
    · simp [sp, hf] at h
    · simp only [sp, hf, pushError, List.length_append, List.length_cons, List.length_nil]; omega
    · simp [sp, hf] at h
  | bigintC =>
    intro v p errs h
    rcases hf : fastP .bigintS v with d | _ | m
    · simp [sp, hf] at h
    · simp only [sp, hf, pushError, List.length_append, List.length_cons, List.length_nil]; omega
    · simp [sp, hf] at h
  | nullC =>
    intro v p errs h
    rcases hf : fastP .nullS v with d | _ | m
    · simp [sp, hf] at h
    · simp only [sp, hf, pushError, List.length_append, List.length_cons, List.length_nil]; omega
    · simp [sp, hf] at h
  | undefinedC =>
    intro v p errs h
    rcases hf : fastP .undefinedS v with d | _ | m
    · simp [sp, hf] at h
    · simp only [sp, hf, pushError, List.length_append, List.length_cons, List.length_nil]; omega
    · simp [sp, hf] at h
  | unknownC => intro v p errs h; simp [sp] at h
  | literalC lit =>
    intro v p errs h
    rcases hf : fastP (.literalS lit) v with d | _ | m
    · simp [sp, hf] at h
    · simp only [sp, hf, pushError, List.length_append, List.length_cons, List.length_nil]; omega
    · simp [sp, hf] at h
  | @arrayC item hitem ih =>
    intro v p errs h
    rcases hf : fastP (.arrayS item) v with d | _ | m
    · simp [sp, hf] at h
    · simp only [sp, hf] at h ⊢
      cases v with
      | varr items =>
        have hfa : fastArr item items = GRes.fail := by
          rcases hfa2 : fastArr item items with ds | _ | m2
          · simp [fastP, hfa2] at hf
          · rfl
          · simp [fastP, hfa2] at hf
        rcases hd : diagArr item items 0 p errs with ⟨r, e1⟩
        rcases diagArr_grow item ih items 0 p errs hfa with ⟨m2, hm⟩ | hgrow
        · rw [hd] at hm; simp only at hm; subst hm
          simp [spArrFail, hd] at h
        · rw [hd] at hgrow; simp only at hgrow
          cases r with
          | raise m2 => simp [spArrFail, hd] at h
          | ok u => simp only [spArrFail, hd]; exact hgrow
          | fail => simp only [spArrFail, hd]; exact hgrow
      | vstr a => simp only [spArrFail, pushError, List.length_append, List.length_cons, List.length_nil]; omega
      | vnum a => simp only [spArrFail, pushError, List.length_append, List.length_cons, List.length_nil]; omega
      | vbool a => simp only [spArrFail, pushError, List.length_append, List.length_cons, List.length_nil]; omega
      | vbigint a => simp only [spArrFail, pushError, List.length_append, List.length_cons, List.length_nil]; omega
      | vnull => simp only [spArrFail, pushError, List.length_append, List.length_cons, List.length_nil]; omega
      | vundef => simp only [spArrFail, pushError, List.length_append, List.length_cons, List.length_nil]; omega
      | vobj fs => simp only [spArrFail, pushError, List.length_append, List.length_cons, List.length_nil]; omega
    · simp [sp, hf] at h
  | @tupleC ss hss ih =>
    intro v p errs h
    rcases hf : fastP (.tupleS ss) v with d | _ | m
    · simp [sp, hf] at h
    · simp only [sp, hf] at h ⊢
      cases v with
      | varr items =>
        by_cases hlen : items.length = ss.length
        · have hft : fastTup ss items = GRes.fail := by
            rcases hft2 : fastTup ss items with ds | _ | m2
            · simp [fastP, hlen, hft2] at hf
            · rfl
            · simp [fastP, hlen, hft2] at hf
          rcases hd : diagTup ss items 0 p errs with ⟨r, e1⟩
          rcases diagTup_grow ss ih items 0 p errs hft with ⟨m2, hm⟩ | hgrow
          · rw [hd] at hm; simp only at hm; subst hm
            simp only [spTupFail, if_pos hlen, hd] at h
            simp at h
          · rw [hd] at hgrow; simp only at hgrow
            cases r with
            | raise m2 =>
              simp only [spTupFail, if_pos hlen, hd] at h
              simp at h
            | ok u => simp only [spTupFail, if_pos hlen, hd]; exact hgrow
            | fail => simp only [spTupFail, if_pos hlen, hd]; exact hgrow
        · simp only [spTupFail]
          rw [if_neg hlen]
          simp only [pushError, List.length_append, List.length_cons, List.length_nil]; omega
      | vstr a => simp only [spTupFail, pushError, List.length_append, List.length_cons, List.length_nil]; omega
      | vnum a => simp only [spTupFail, pushError, List.length_append, List.length_cons, List.length_nil]; omega
      | vbool a => simp only [spTupFail, pushError, List.length_append, List.length_cons, List.length_nil]; omega
      | vbigint a => simp only [spTupFail, pushError, List.length_append, List.length_cons, List.length_nil]; omega
      | vnull => simp only [spTupFail, pushError, List.length_append, List.length_cons, List.length_nil]; omega
      | vundef => simp only [spTupFail, pushError, List.length_append, List.length_cons, List.length_nil]; omega
      | vobj fs => simp only [spTupFail, pushError, List.length_append, List.length_cons, List.length_nil]; omega
    · simp [sp, hf] at h
  | @objectC shape strict hshape ih =>
    intro v p errs h
    rcases hf : fastP (.objectS shape strict) v with d | _ | m
    · simp [sp, hf] at h
    · simp only [sp, hf] at h ⊢
      cases v with
      | vobj fields =>
        rcases hfo : fastObj shape fields with ds | _ | m2
        · have hst : (strict && !(unrecognizedKeys shape fields).isEmpty) = true := by
            by_cases hst2 : (strict && !(unrecognizedKeys shape fields).isEmpty) = true
            · exact hst2
            · exfalso; simp [fastP, hfo, hst2] at hf
          rcases hd : diagObj shape fields p errs with ⟨r, e1⟩
          have hmono : errs.length ≤ e1.length := by
            have h2 := diagObj_len_mono shape fields p errs
            rw [hd] at h2; simpa using h2
          cases r with
          | raise m3 =>
            exact absurd (by rw [hd] : (diagObj shape fields p errs).1 = GRes.raise m3)
              (diagObj_ok_no_raise shape fields ds p errs m3 hfo)
          | ok u =>
            simp only [spObjFail, hd]
            rw [if_pos hst]
            simp only [pushError, List.length_append, List.length_cons, List.length_nil]; omega
          | fail =>
            simp only [spObjFail, hd]
            rw [if_pos hst]
            simp only [pushError, List.length_append, List.length_cons, List.length_nil]; omega
        · rcases hd : diagObj shape fields p errs with ⟨r, e1⟩
          rcases diagObj_grow shape ih fields p errs hfo with ⟨m3, hm⟩ | hgrow
          · rw [hd] at hm; simp only at hm; subst hm
            simp [spObjFail, hd] at h
          · rw [hd] at hgrow; simp only at hgrow
            cases r with
            | raise m3 => simp [spObjFail, hd] at h
            | ok u =>
              simp only [spObjFail, hd]
              by_cases hst : (strict && !(unrecognizedKeys shape fields).isEmpty) = true
              · rw [if_pos hst]
                simp only [pushError, List.length_append, List.length_cons, List.length_nil]; omega
              · rw [if_neg hst]; exact hgrow
            | fail =>
              simp only [spObjFail, hd]
              by_cases hst : (strict && !(unrecognizedKeys shape fields).isEmpty) = true
              · rw [if_pos hst]
                simp only [pushError, List.length_append, List.length_cons, List.length_nil]; omega
              · rw [if_neg hst]; exact hgrow
        · simp [fastP, hfo] at hf
      | vstr a => simp only [spObjFail, pushError, List.length_append, List.length_cons, List.length_nil]; omega
      | vnum a => simp only [spObjFail, pushError, List.length_append, List.length_cons, List.length_nil]; omega
      | vbool a => simp only [spObjFail, pushError, List.length_append, List.length_cons, List.length_nil]; omega
      | vbigint a => simp only [spObjFail, pushError, List.length_append, List.length_cons, List.length_nil]; omega
      | vnull => simp only [spObjFail, pushError, List.length_append, List.length_cons, List.length_nil]; omega
      | vundef => simp only [spObjFail, pushError, List.length_append, List.length_cons, List.length_nil]; omega
      | varr fs => simp only [spObjFail, pushError, List.length_append, List.length_cons, List.length_nil]; omega
    · simp [sp, hf] at h
  | @recordC valS hval ih =>
    intro v p errs h
    rcases hf : fastP (.recordS valS) v with d | _ | m
    · simp [sp, hf] at h
    · simp only [sp, hf] at h ⊢
      cases v with
      | vobj fields =>
        have hfr : fastRec valS fields = GRes.fail := by
          rcases hfr2 : fastRec valS fields with ds | _ | m2
          · simp [fastP, hfr2] at hf
          · rfl
          · simp [fastP, hfr2] at hf
        rcases hd : diagRec valS fields p errs with ⟨r, e1⟩
        rcases diagRec_grow valS ih fields p errs hfr with ⟨m2, hm⟩ | hgrow
        · rw [hd] at hm; simp only at hm; subst hm
          simp [spRecFail, hd] at h
        · rw [hd] at hgrow; simp only at hgrow
          cases r with
          | raise m2 => simp [spRecFail, hd] at h
          | ok u => simp only [spRecFail, hd]; exact hgrow
          | fail => simp only [spRecFail, hd]; exact hgrow
      | vstr a => simp [fastP] at hf
      | vnum a => simp [fastP] at hf
      | vbool a => simp [fastP] at hf
      | vbigint a => simp [fastP] at hf
      | vnull => simp [fastP] at hf
      | vundef => simp [fastP] at hf
      | varr fs => simp [fastP] at hf
    · simp [sp, hf] at h
  | @unionC bs hne hbs ih =>
    intro v p errs h
    rcases hf : fastP (.unionS bs) v with d | _ | m
    · simp [sp, hf] at h
    · simp only [sp, hf] at h ⊢
      have hfu : fastUnion bs v = GRes.fail := by rw [fastP] at hf; exact hf
      rcases hd : diagUnion bs v p errs with ⟨r, e1⟩
      rcases diagUnion_grow bs ih hne v p errs hfu with ⟨m2, hm⟩ | hgrow
      · rw [hd] at hm; simp only at hm; subst hm
        simp [hd] at h
      · rw [hd] at hgrow; simp only at hgrow
        cases r with
        | raise m2 => simp [hd] at h
        | ok u => simp only [hd]; exact hgrow
        | fail => simp only [hd]; exact hgrow
    · simp [sp, hf] at h
  | @transformC inner fn hinner ih =>
    intro v p errs h
    rcases hi : sp inner v p errs with ⟨r, e1⟩
    have hmono : errs.length ≤ e1.length := by
      have h2 := sp_len_mono inner v p errs
      rw [hi] at h2; simpa using h2
    cases r with
    | ok d =>
      rcases hfn : fn d with m2 | u
      · simp only [sp, hi, hfn, pushError, List.length_append, List.length_cons, List.length_nil]
        omega
      · simp [sp, hi, hfn] at h
    | fail =>
      have hg : errs.length < e1.length := by
        have h2 := ih v p errs (by rw [hi])
        rw [hi] at h2; simpa using h2
      simp only [sp, hi]
      simpa using hg
    | raise m2 =>
      simp only [sp, hi, pushError, List.length_append, List.length_cons, List.length_nil]
      omega
  | @lazyC inner hinner ih =>
    intro v p errs h
    simp only [sp] at h ⊢
    exact ih v p errs h
  | @discUnionC dkey bs hbs ih =>
    intro v p errs h
    simp only [sp] at h ⊢
    cases v with
    | vobj fields =>
      by_cases h0 : countMatches (lookupField fields dkey) bs = 0
      · simp only [spDisc, if_pos h0, pushError, List.length_append, List.length_cons, List.length_nil]
        omega
      · by_cases h1 : countMatches (lookupField fields dkey) bs = 1
        · simp only [spDisc, if_neg h0, if_pos h1] at h ⊢
          exact spDiscFirst_grow bs ih (lookupField fields dkey) (.vobj fields) p errs
            (countMatches_one_mem h1) h
        · simp only [spDisc, if_neg h0, if_neg h1, pushError, List.length_append,
            List.length_cons, List.length_nil]
          omega
    | vstr a => simp only [spDisc, pushError, List.length_append, List.length_cons, List.length_nil]; omega
    | vnum a => simp only [spDisc, pushError, List.length_append, List.length_cons, List.length_nil]; omega
    | vbool a => simp only [spDisc, pushError, List.length_append, List.length_cons, List.length_nil]; omega
    | vbigint a => simp only [spDisc, pushError, List.length_append, List.length_cons, List.length_nil]; omega
    | vnull => simp only [spDisc, pushError, List.length_append, List.length_cons, List.length_nil]; omega
    | vundef => simp only [spDisc, pushError, List.length_append, List.length_cons, List.length_nil]; omega
    | varr fs => simp only [spDisc, pushError, List.length_append, List.length_cons, List.length_nil]; omega

/-- The public safeParse succeeds exactly when the fast pass does, with the
same data. -/
theorem safeParse_success_iff (s : SchemaD) (v : JSValue) (d : JSValue) :
    (safeParse s v = SafeParseResult.success d ↔ fastP s v = GRes.ok d) := by
  unfold safeParse
  rcases hsp : sp s v [] [] with ⟨r, e⟩
  have hiff := sp_ok_iff s v [] [] d
  rw [hsp] at hiff
  simp only at hiff
  cases r with
  | ok u => simpa using hiff
  | fail => simpa using hiff
  | raise m => simpa using hiff

theorem fastP_undef_ne (v : JSValue) (h : v ≠ JSValue.vundef) :
    fastP .undefinedS v = GRes.fail := by
  cases v <;> simp [fastP] at h ⊢

theorem fastP_null_ne (v : JSValue) (h : v ≠ JSValue.vnull) :
    fastP .nullS v = GRes.fail := by
  cases v <;> simp [fastP] at h ⊢

theorem fastUnion_single (s : SchemaD) (v : JSValue) : fastUnion [s] v = fastP s v := by
  rcases hf : fastP s v with d | _ | m <;> simp [fastUnion, hf]

theorem optional_fastP (s : SchemaD) (v : JSValue) (h : v ≠ JSValue.vundef) :
    fastP (createOptionalSchema s) v = fastP s v := by
  simp only [createOptionalSchema, fastP, fastUnion, fastP_undef_ne v h]
  rcases hf : fastP s v with d | _ | m <;> simp [hf]

theorem nullable_fastP (s : SchemaD) (v : JSValue) (h : v ≠ JSValue.vnull) :
    fastP (createNullableSchema s) v = fastP s v := by
  simp only [createNullableSchema, fastP, fastUnion, fastP_null_ne v h]
  rcases hf : fastP s v with d | _ | m <;> simp [hf]

theorem nullish_fastP (s : SchemaD) (v : JSValue) (h1 : v ≠ JSValue.vnull)
    (h2 : v ≠ JSValue.vundef) :
    fastP (createNullishSchema s) v = fastP s v := by
  simp only [createNullishSchema, fastP, fastUnion, fastP_null_ne v h1, fastP_undef_ne v h2]
  rcases hf : fastP s v with d | _ | m <;> simp [hf]

theorem fastObj_ok_forall2 :
    ∀ (shape : List (String × SchemaD)) (fields pv : List (String × JSValue)),
      fastObj shape fields = GRes.ok pv →
      List.Forall₂ (fun q pq => pq.1 = q.1 ∧ fastP q.2 (lookupField fields q.1) = GRes.ok pq.2)
        shape pv := by
  intro shape
  induction shape with
  | nil =>
    intro fields pv h
    simp only [fastObj] at h
    injection h with h2
    subst h2
    exact List.Forall₂.nil
  | cons q rest ihl =>
    intro fields pv h
    rcases q with ⟨k, fs⟩
    rcases hx : fastP fs (lookupField fields k) with d | _ | m2
    · rcases hrest : fastObj rest fields with ds2 | _ | m3
      · simp only [fastObj, hx, hrest] at h
        injection h with h2
        subst h2
        exact List.Forall₂.cons ⟨rfl, hx⟩ (ihl fields ds2 hrest)
      · simp [fastObj, hx, hrest] at h
      · simp [fastObj, hx, hrest] at h
    · simp [fastObj, hx] at h
    · simp [fastObj, hx] at h

theorem fastObj_keys :
    ∀ (shape : List (String × SchemaD)) (fields pv : List (String × JSValue)),
      fastObj shape fields = GRes.ok pv →
      pv.map Prod.fst = shape.map Prod.fst := by
  intro shape
  induction shape with
  | nil =>
    intro fields pv h
    simp only [fastObj] at h
    injection h with h2
    subst h2
    simp
  | cons q rest ihl =>
    intro fields pv h
    rcases q with ⟨k, fs⟩
    rcases hx : fastP fs (lookupField fields k) with d | _ | m2
    · rcases hrest : fastObj rest fields with ds2 | _ | m3
      · simp only [fastObj, hx, hrest] at h
        injection h with h2
        subst h2
        simp [ihl fields ds2 hrest]
      · simp [fastObj, hx, hrest] at h
      · simp [fastObj, hx, hrest] at h
    · simp [fastObj, hx] at h
    · simp [fastObj, hx] at h

theorem lookupField_append_ne :
    ∀ (fields : List (String × JSValue)) (k k2 : String) (w : JSValue), k2 ≠ k →
      lookupField (fields ++ [(k, w)]) k2 = lookupField fields k2 := by
  intro fields k k2 w hne
  induction fields with
  | nil =>
    simp only [List.nil_append, lookupField]
    rw [if_neg (fun he => hne he.symm)]
  | cons f rest ihl =>
    rcases f with ⟨k3, w3⟩
    by_cases h3 : k3 = k2
    · simp [lookupField, h3]
    · simp [lookupField, h3, ihl]

theorem lookupField_not_mem (fields : List (String × JSValue)) (k : String)
    (h : k ∉ fields.map Prod.fst) : lookupField fields k = JSValue.vundef := by
  induction fields with
  | nil => simp [lookupField]
  | cons f rest ihl =>
    rcases f with ⟨k3, w3⟩
    simp only [List.map_cons, List.mem_cons, not_or] at h
    simp only [lookupField]
    rw [if_neg (fun he => h.1 he.symm)]
    exact ihl h.2

/-- Scalar (non-composite) JS values: the only values the source's `literal`
constructor can store. -/
def isScalar : JSValue → Bool
  | .varr _ => false
  | .vobj _ => false
  | _ => true

theorem scalarEq_self (a : JSValue) (h : isScalar a = true) : scalarEq a a = true := by
  cases a <;> simp [scalarEq] <;> simp [isScalar] at h

theorem hasKeyS_iff (shape : List (String × α)) (k : String) :
    hasKeyS shape k = true ↔ k ∈ shape.map Prod.fst := by
  induction shape with
  | nil => simp [hasKeyS]
  | cons q rest ihl =>
    rcases q with ⟨k3, w3⟩
    simp only [hasKeyS, List.map_cons, List.mem_cons]
    by_cases h3 : k3 = k
    · simp [h3]
    · rw [if_neg h3, ihl]
      constructor
      · exact fun hm => Or.inr hm
      · intro hm
        rcases hm with he | hm
        · exact absurd he.symm h3
        · exact hm

theorem unrecognizedKeys_nil (shape : List (String × α)) (fields : List (String × JSValue))
    (h : ∀ k ∈ fields.map Prod.fst, k ∈ shape.map Prod.fst) :
    unrecognizedKeys shape fields = [] := by
  induction fields with
  | nil => simp [unrecognizedKeys]
  | cons f rest ihl =>
    rcases f with ⟨k3, w3⟩
    have hk : hasKeyS shape k3 = true := (hasKeyS_iff shape k3).mpr (h k3 (by simp))
    simp only [unrecognizedKeys, hk, if_pos]
    exact ihl (fun k hk2 => h k (by simp [hk2]))

/-- The schema fragment on which parsing is idempotent: everything except
`transform`, `union` (with its derived optional/nullable/nullish forms) and
the discriminated union.  Object shapes carry the distinct-key property that
the source's typed shape objects always have. -/
inductive IdemOK : SchemaD → Prop
  | stringC : IdemOK .stringS
  | numberC : IdemOK .numberS
  | booleanC : IdemOK .booleanS
  | bigintC : IdemOK .bigintS
  | nullC : IdemOK .nullS
  | undefinedC : IdemOK .undefinedS
  | unknownC : IdemOK .unknownS
  | literalC {lit : JSValue} : isScalar lit = true → IdemOK (.literalS lit)
  | arrayC {item : SchemaD} : IdemOK item → IdemOK (.arrayS item)
  | tupleC {ss : List SchemaD} : (∀ s ∈ ss, IdemOK s) → IdemOK (.tupleS ss)
  | objectC {shape : List (String × SchemaD)} {strict : Bool} :
      (shape.map Prod.fst).Nodup → (∀ q ∈ shape, IdemOK q.2) →
      IdemOK (.objectS shape strict)
  | recordC {valS : SchemaD} : IdemOK valS → IdemOK (.recordS valS)
  | lazyC {inner : SchemaD} : IdemOK inner → IdemOK (.lazyS inner)

theorem fastArr_idem (item : SchemaD)
    (ihi : ∀ v r, fastP item v = GRes.ok r → fastP item r = GRes.ok r) :
    ∀ (vs ds : List JSValue), fastArr item vs = GRes.ok ds → fastArr item ds = GRes.ok ds := by
  intro vs
  induction vs with
  | nil =>
    intro ds h
    simp only [fastArr] at h
    injection h with h2
    subst h2
    simp [fastArr]
  | cons x xs ihl =>
    intro ds h
    rcases hx : fastP item x with d | _ | m2
    · rcases hxs : fastArr item xs with ds2 | _ | m3
      · simp only [fastArr, hx, hxs] at h
        injection h with h2
        subst h2
        simp [fastArr, ihi x d hx, ihl ds2 hxs]
      · simp [fastArr, hx, hxs] at h
      · simp [fastArr, hx, hxs] at h
    · simp [fastArr, hx] at h
    · simp [fastArr, hx] at h

theorem fastTup_len :
    ∀ (ss : List SchemaD) (vs ds : List JSValue),
      fastTup ss vs = GRes.ok ds → ds.length = ss.length := by
  intro ss
  induction ss with
  | nil =>
    intro vs ds h
    simp only [fastTup] at h
    injection h with h2
    subst h2
    simp
  | cons s2 rest ihl =>
    intro vs ds h
    rcases hx : fastP s2 (headOr vs) with d | _ | m2
    · rcases hxs : fastTup rest vs.tail with ds2 | _ | m3
      · simp only [fastTup, hx, hxs] at h
        injection h with h2
        subst h2
        simp [ihl vs.tail ds2 hxs]
      · simp [fastTup, hx, hxs] at h
      · simp [fastTup, hx, hxs] at h
    · simp [fastTup, hx] at h
    · simp [fastTup, hx] at h

theorem fastTup_idem :
    ∀ (ss : List SchemaD),
      (∀ s2 ∈ ss, ∀ v r, fastP s2 v = GRes.ok r → fastP s2 r = GRes.ok r) →
    ∀ (vs ds : List JSValue), fastTup ss vs = GRes.ok ds → fastTup ss ds = GRes.ok ds := by
  intro ss
  induction ss with
  | nil =>
    intro _ vs ds h
    simp only [fastTup] at h
    injection h with h2
    subst h2
    simp [fastTup]
  | cons s2 rest ihl =>
    intro ihi vs ds h
    rcases hx : fastP s2 (headOr vs) with d | _ | m2
    · rcases hxs : fastTup rest vs.tail with ds2 | _ | m3
      · simp only [fastTup, hx, hxs] at h
        injection h with h2
        subst h2
        have hh : fastP s2 d = GRes.ok d := ihi s2 (by simp) (headOr vs) d hx
        have ht : fastTup rest ds2 = GRes.ok ds2 :=
          ihl (fun s3 hs3 => ihi s3 (by simp [hs3])) vs.tail ds2 hxs
        simp [fastTup, headOr, hh, ht]
      · simp [fastTup, hx, hxs] at h
      · simp [fastTup, hx, hxs] at h
    · simp [fastTup, hx] at h
    · simp [fastTup, hx] at h

theorem fastRec_idem (valS : SchemaD)
    (ihi : ∀ v r, fastP valS v = GRes.ok r → fastP valS r = GRes.ok r) :
    ∀ (fields pv : List (String × JSValue)),
      fastRec valS fields = GRes.ok pv → fastRec valS pv = GRes.ok pv := by
  intro fields
  induction fields with
  | nil =>
    intro pv h
    simp only [fastRec] at h
    injection h with h2
    subst h2
    simp [fastRec]
  | cons f rest ihl =>
    intro pv h
    rcases f with ⟨k, w⟩
    rcases hx : fastP valS w with d | _ | m2
    · rcases hxs : fastRec valS rest with pv2 | _ | m3
      · simp only [fastRec, hx, hxs] at h
        injection h with h2
        subst h2
        simp [fastRec, ihi w d hx, ihl pv2 hxs]
      · simp [fastRec, hx, hxs] at h
      · simp [fastRec, hx, hxs] at h
    · simp [fastRec, hx] at h
    · simp [fastRec, hx] at h

theorem fastObj_idem_aux :
    ∀ (shape : List (String × SchemaD)),
      (shape.map Prod.fst).Nodup →
      (∀ q ∈ shape, ∀ v r, fastP q.2 v = GRes.ok r → fastP q.2 r = GRes.ok r) →
    ∀ (fields pv pvfull : List (String × JSValue)),
      fastObj shape fields = GRes.ok pv →
      (∀ k ∈ shape.map Prod.fst, lookupField pvfull k = lookupField pv k) →
      fastObj shape pvfull = GRes.ok pv := by
  intro shape
  induction shape with
  | nil =>
    intro _ _ fields pv pvfull h _
    simp only [fastObj] at h
    injection h with h2
    subst h2
    simp [fastObj]
  | cons q rest ihl =>
    intro hnd ihi fields pv pvfull h hlk
    rcases q with ⟨k0, fs⟩
    rcases hx : fastP fs (lookupField fields k0) with d | _ | m2
    · rcases hxs : fastObj rest fields with pv2 | _ | m3
      · simp only [fastObj, hx, hxs] at h
        injection h with h2
        subst h2
        have hk0 : lookupField pvfull k0 = d := by
          rw [hlk k0 (by simp)]
          simp [lookupField]
        have hknotin : k0 ∉ rest.map Prod.fst := by
          simp only [List.map_cons, List.nodup_cons] at hnd
          exact hnd.1
        have hrest : fastObj rest pvfull = GRes.ok pv2 := by
          apply ihl (by simp only [List.map_cons, List.nodup_cons] at hnd; exact hnd.2)
            (fun q2 hq2 => ihi q2 (by simp [hq2])) fields pv2 pvfull hxs
          intro k hk
          rw [hlk k (by simp [hk])]
          simp only [lookupField]
          rw [if_neg (show ¬ k0 = k from fun he => hknotin (by rw [he]; exact hk))]
        have hd : fastP fs d = GRes.ok d := ihi (k0, fs) (by simp) (lookupField fields k0) d hx
        simp [fastObj, hk0, hd, hrest]
      · simp [fastObj, hx, hxs] at h
      · simp [fastObj, hx, hxs] at h
    · simp [fastObj, hx] at h
    · simp [fastObj, hx] at h

/-- On the idempotent fragment, a successful fast parse re-parses its own
output to the same value. -/
theorem fastP_idem {s : SchemaD} (hs : IdemOK s) :
    ∀ (v r : JSValue), fastP s v = GRes.ok r → fastP s r = GRes.ok r := by
  induction hs with
  | stringC => intro v r h; cases v <;> simp [fastP] at h <;> subst h <;> simp [fastP]
  | numberC => intro v r h; cases v <;> simp [fastP] at h <;> subst h <;> simp [fastP]
  | booleanC => intro v r h; cases v <;> simp [fastP] at h <;> subst h <;> simp [fastP]
  | bigintC => intro v r h; cases v <;> simp [fastP] at h <;> subst h <;> simp [fastP]
  | nullC => intro v r h; cases v <;> simp [fastP] at h <;> subst h <;> simp [fastP]
  | undefinedC => intro v r h; cases v <;> simp [fastP] at h <;> subst h <;> simp [fastP]
  | unknownC => intro v r h; simp [fastP] at h; subst h; simp [fastP]
  | @literalC lit hsc =>
    intro v r h
    by_cases hl : scalarEq v lit = true
    · simp only [fastP, hl, if_pos] at h
      injection h with h2
      subst h2
      simp [fastP, scalarEq_self lit hsc]
    · simp [fastP, hl] at h
  | @arrayC item hitem ih =>
    intro v r h
    cases v with
    | varr items =>
      rcases ha : fastArr item items with ds | _ | m2
      · simp only [fastP, ha] at h
        injection h with h2
        subst h2
        simp [fastP, fastArr_idem item ih items ds ha]
      · simp [fastP, ha] at h
      · simp [fastP, ha] at h
    | vstr a => simp [fastP] at h
    | vnum a => simp [fastP] at h
    | vbool a => simp [fastP] at h
    | vbigint a => simp [fastP] at h
    | vnull => simp [fastP] at h
    | vundef => simp [fastP] at h
    | vobj fs => simp [fastP] at h
  | @tupleC ss hss ih =>
    intro v r h
    cases v with
    | varr items =>
      by_cases hlen : items.length = ss.length
      · rcases ha : fastTup ss items with ds | _ | m2
        · simp only [fastP, hlen, if_pos, ha] at h
          injection h with h2
          subst h2
          have hidem := fastTup_idem ss ih items ds ha
          have hl2 : ds.length = ss.length := fastTup_len ss items ds ha
          simp [fastP, hl2, hidem]
        · simp [fastP, hlen, ha] at h
        · simp [fastP, hlen, ha] at h
      · simp [fastP, hlen] at h
    | vstr a => simp [fastP] at h
    | vnum a => simp [fastP] at h
    | vbool a => simp [fastP] at h
    | vbigint a => simp [fastP] at h
    | vnull => simp [fastP] at h
    | vundef => simp [fastP] at h
    | vobj fs => simp [fastP] at h
  | @objectC shape strict hnd hshape ih =>
    intro v r h
    cases v with
    | vobj fields =>
      rcases ha : fastObj shape fields with pv | _ | m2
      · by_cases hst : (strict && !(unrecognizedKeys shape fields).isEmpty) = true
        · simp [fastP, ha, hst] at h
        · simp only [fastP, ha] at h
          rw [if_neg hst] at h
          injection h with h2
          subst h2
          have hobj : fastObj shape pv = GRes.ok pv :=
            fastObj_idem_aux shape hnd ih fields pv pv ha (fun k _ => rfl)
          have hkeys := fastObj_keys shape fields pv ha
          have hun : unrecognizedKeys shape pv = [] :=
            unrecognizedKeys_nil shape pv (fun k hk => by rw [← hkeys]; exact hk)
          simp [fastP, hobj, hun]
      · simp [fastP, ha] at h
      · simp [fastP, ha] at h
    | vstr a => simp [fastP] at h
    | vnum a => simp [fastP] at h
    | vbool a => simp [fastP] at h
    | vbigint a => simp [fastP] at h
    | vnull => simp [fastP] at h
    | vundef => simp [fastP] at h
    | varr fs => simp [fastP] at h
  | @recordC valS hval ih =>
    intro v r h
    cases v with
    | vobj fields =>
      rcases ha : fastRec valS fields with pv | _ | m2
      · simp only [fastP, ha] at h
        injection h with h2
        subst h2
        simp [fastP, fastRec_idem valS ih fields pv ha]
      · simp [fastP, ha] at h
      · simp [fastP, ha] at h
    | vstr a => simp [fastP] at h
    | vnum a => simp [fastP] at h
    | vbool a => simp [fastP] at h
    | vbigint a => simp [fastP] at h
    | vnull => simp [fastP] at h
    | vundef => simp [fastP] at h
    | varr fs => simp [fastP] at h
  | @lazyC inner hinner ih =>
    intro v r h
    rw [fastP] at h ⊢
    exact ih v r h

/-- C1 (amended): for every schema in which `record` does not occur outside a
`transform`, `safeParse` never throws: it returns success or a structured
failure.  The claim as stated is refuted by `claim_C1_counterexample`: the
record validator throws on non-object input before any context handling. -/
theorem claim_C1 {s : SchemaD} (hs : NoBareRecord s) (v : JSValue) (m : String) :
    safeParse s v ≠ SafeParseResult.thrown m := by
  intro h
  unfold safeParse at h
  rcases hsp : sp s v [] [] with ⟨r, e⟩
  rw [hsp] at h
  cases r with
  | ok d => simp at h
  | fail => simp at h
  | raise m2 => exact sp_no_raise hs v [] [] m2 (by rw [hsp]) 

/-- C1 counterexample: `record(number()).safeParse(null)` raises
`Error("Expected object, got null")` (part_001 line 276) instead of
returning a structured failure result. -/
theorem claim_C1_counterexample :
    safeParse (createRecordSchema createNumberSchema) JSValue.vnull =
      SafeParseResult.thrown ("Expected object, got null") := by
  simp [createRecordSchema, createNumberSchema, safeParse, sp, fastP, getType]

/-- C1 witness: a concrete record-free schema on which safeParse does not
throw. -/
theorem claim_C1_witness :
    NoBareRecord (createObjectSchema [("a", createNumberSchema)]) ∧
      safeParse (createObjectSchema [("a", createNumberSchema)]) JSValue.vnull ≠
        SafeParseResult.thrown ("boom") := by
  have hnb : NoBareRecord (createObjectSchema [("a", createNumberSchema)]) := by
    apply NoBareRecord.objectC
    intro q hq
    rw [List.mem_singleton] at hq
    subst hq
    exact NoBareRecord.numberC
  exact ⟨hnb, claim_C1 hnb JSValue.vnull ("boom")⟩

/-- C2 (amended): for every schema containing no union over an empty branch
list, a failing `safeParse` returns at least one `ValidationError`.  The
claim as stated (covering a union over an empty branch list) is refuted by
`claim_C2_counterexample`. -/
theorem claim_C2 {s : SchemaD} (hs : NoEmptyUnion s) (v : JSValue) (msg : String)
    (errs : List VError) (h : safeParse s v = SafeParseResult.failure msg errs) :
    0 < errs.length := by
  unfold safeParse at h
  rcases hsp : sp s v [] [] with ⟨r, e⟩
  rw [hsp] at h
  cases r with
  | ok d => simp at h
  | raise m2 => simp at h
  | fail =>
    simp only [SafeParseResult.failure.injEq] at h
    have hg := sp_fail_grows hs v [] [] (by rw [hsp])
    rw [hsp] at hg
    simp only [List.length_nil] at hg
    rw [← h.2]
    simpa using hg

/-- C2 counterexample: a union over an empty branch list fails with an empty
errors list (and the bare aggregate message), refuting `errors.length >= 1`
for that case. -/
theorem claim_C2_counterexample :
    safeParse (createUnionSchema []) (JSValue.vnum 0) =
      SafeParseResult.failure ("Validation failed: ") [] := by
  simp [createUnionSchema, safeParse, sp, fastP, fastUnion, diagUnion, mkMessage]
  decide

/-- C2 witness: a concrete failing parse with a nonempty error list. -/
theorem claim_C2_witness :
    NoEmptyUnion createStringSchema ∧
      0 < ([⟨[], "Expected string, got number"⟩] : List VError).length := by
  refine ⟨NoEmptyUnion.stringC, ?_⟩
  apply claim_C2 NoEmptyUnion.stringC (JSValue.vnum 0)
    ("Validation failed: Expected string, got number (at path /)")
  simp [createStringSchema, safeParse, sp, fastP, getType, pushError, mkMessage, fmtError,
    pathJoin, commaSep, slashSep, entryToString]
  constructor <;> decide

theorem parse_ok_iff (s : SchemaD) (v d : JSValue) :
    parse s v = ParseResult.ok d ↔ fastP s v = GRes.ok d := by
  constructor
  · intro hp
    unfold parse at hp
    rcases h : safeParse s v with d2 | ⟨m, e⟩ | m <;> rw [h] at hp <;> simp at hp
    subst hp
    exact (safeParse_success_iff s v d2).mp h
  · intro hf
    unfold parse
    rw [(safeParse_success_iff s v d).mpr hf]

theorem safeParse_of_sp_fail {s : SchemaD} {v : JSValue} {e : List VError}
    (h : sp s v [] [] = (GRes.fail, e)) :
    safeParse s v = SafeParseResult.failure (mkMessage e) e := by
  unfold safeParse
  rw [h]

theorem parse_of_sp_fail {s : SchemaD} {v : JSValue} {e : List VError}
    (h : sp s v [] [] = (GRes.fail, e)) :
    parse s v = ParseResult.threw (mkMessage e) := by
  unfold parse
  rw [safeParse_of_sp_fail h]

theorem sp_discUnion_invalid {dkey : String} {bs : List (JSValue × SchemaD)}
    {fields : List (String × JSValue)} {p : EPath} {errs : List VError}
    (h0 : countMatches (lookupField fields dkey) bs = 0) :
    sp (.discUnionS dkey bs) (.vobj fields) p errs =
      (.fail, pushError (p ++ [.key dkey]) errs
        ("Invalid discriminator value " ++ inspect (lookupField fields dkey))) := by
  simp only [sp, spDisc, h0, if_pos]

theorem sp_discUnion_ambiguous {dkey : String} {bs : List (JSValue × SchemaD)}
    {fields : List (String × JSValue)} {p : EPath} {errs : List VError}
    (h0 : ¬ countMatches (lookupField fields dkey) bs = 0)
    (h1 : ¬ countMatches (lookupField fields dkey) bs = 1) :
    sp (.discUnionS dkey bs) (.vobj fields) p errs =
      (.fail, pushError (p ++ [.key dkey]) errs
        ("Ambiguous discriminator value " ++ inspect (lookupField fields dkey))) := by
  simp only [sp, spDisc]
  rw [if_neg h0, if_neg h1]

theorem fastP_discUnion_one {dkey : String} {bs : List (JSValue × SchemaD)}
    {fields : List (String × JSValue)}
    (h1 : countMatches (lookupField fields dkey) bs = 1) :
    fastP (.discUnionS dkey bs) (.vobj fields) =
      fastDiscFirst bs (lookupField fields dkey) (.vobj fields) := by
  simp only [fastP]
  rw [if_pos h1]

theorem sp_obj_fastfail {shape : List (String × SchemaD)} {strict : Bool} {v : JSValue}
    (h : fastP (.objectS shape strict) v = GRes.fail) (p : EPath) (errs : List VError) :
    sp (.objectS shape strict) v p errs = spObjFail shape strict v p errs := by
  simp only [sp, h]

/-- C3 (spec-modelled: `discriminatedUnion` is described by the spec but
absent from src): the discriminator round-trip.  Parsing `{kind: "circle",
radius: 10}` yields the same object; `{kind: "triangle"}` fails with a
message containing `Invalid discriminator value`; two branches declaring
`kind: "same"` make every object input whose `kind` field is `"same"` fail
with a message containing `Ambiguous discriminator value`. -/
theorem claim_C3 :
    (parse shapeSchema (.vobj [("kind", .vstr "circle"), ("radius", .vnum 10)]) =
      ParseResult.ok (.vobj [("kind", .vstr "circle"), ("radius", .vnum 10)])) ∧
    (∃ msg, parse shapeSchema (.vobj [("kind", .vstr "triangle")]) = ParseResult.threw msg ∧
      containsSub msg ("Invalid discriminator value") = true) ∧
    (∀ fields : List (String × JSValue), lookupField fields "kind" = .vstr "same" →
      ∃ msg errs, safeParse ambiguousSchema (.vobj fields) = SafeParseResult.failure msg errs ∧
        containsSub msg ("Ambiguous discriminator value") = true) := by
  refine ⟨?_, ?_, ?_⟩
  · rw [parse_ok_iff]
    rw [show shapeSchema = SchemaD.discUnionS "kind"
      [(JSValue.vstr "circle", circleSchema), (JSValue.vstr "square", squareSchema)] from rfl]
    have hone : countMatches
        (lookupField [("kind", JSValue.vstr "circle"), ("radius", JSValue.vnum 10)] "kind")
        [(JSValue.vstr "circle", circleSchema), (JSValue.vstr "square", squareSchema)] = 1 := by
      decide
    rw [fastP_discUnion_one hone]
    rw [show lookupField [("kind", JSValue.vstr "circle"), ("radius", JSValue.vnum 10)] "kind" =
      JSValue.vstr "circle" from rfl]
    simp only [fastDiscFirst]
    rw [if_pos (show scalarEq (JSValue.vstr "circle") (JSValue.vstr "circle") = true from by
      decide)]
    simp [circleSchema, createObjectSchema, createLiteralSchema, createNumberSchema,
      fastP, fastObj, lookupField, scalarEq]
  · have hform : shapeSchema =
        SchemaD.discUnionS "kind"
          [(.vstr "circle", circleSchema), (.vstr "square", squareSchema)] := rfl
    have h0 : countMatches
        (lookupField [("kind", JSValue.vstr "triangle")] "kind")
        [(JSValue.vstr "circle", circleSchema), (JSValue.vstr "square", squareSchema)] = 0 := by
      decide
    have hsp : sp shapeSchema (.vobj [("kind", .vstr "triangle")]) [] [] =
        (GRes.fail, pushError ([] ++ [PathEntry.key "kind"]) []
          ("Invalid discriminator value " ++
            inspect (lookupField [("kind", JSValue.vstr "triangle")] "kind"))) := by
      rw [hform]
      exact sp_discUnion_invalid h0
    exact ⟨_, parse_of_sp_fail hsp, by decide⟩
  · intro fields hk
    have hform : ambiguousSchema =
        SchemaD.discUnionS "kind"
          [(.vstr "same", sameSchemaA), (.vstr "same", sameSchemaB)] := rfl
    have h0 : ¬ countMatches (lookupField fields "kind")
        [(JSValue.vstr "same", sameSchemaA), (JSValue.vstr "same", sameSchemaB)] = 0 := by
      rw [hk]; decide
    have h1 : ¬ countMatches (lookupField fields "kind")
        [(JSValue.vstr "same", sameSchemaA), (JSValue.vstr "same", sameSchemaB)] = 1 := by
      rw [hk]; decide
    have hsp : sp ambiguousSchema (.vobj fields) [] [] =
        (GRes.fail, pushError ([] ++ [PathEntry.key "kind"]) []
          ("Ambiguous discriminator value " ++ inspect (JSValue.vstr "same"))) := by
      rw [hform, sp_discUnion_ambiguous h0 h1, hk]
    exact ⟨_, _, safeParse_of_sp_fail hsp, by decide⟩

/-- C3 witness: the ambiguous-discriminator part applied at a concrete
input with `kind = "same"`. -/
theorem claim_C3_witness :
    ∃ msg errs,
      safeParse ambiguousSchema (.vobj [("kind", .vstr "same"), ("a", .vnum 1)]) =
        SafeParseResult.failure msg errs ∧
      containsSub msg ("Ambiguous discriminator value") = true :=
  claim_C3.2.2 [("kind", .vstr "same"), ("a", .vnum 1)] (by simp [lookupField])

theorem fastObj_append_ne :
    ∀ (shape : List (String × SchemaD)) (fields : List (String × JSValue))
      (k : String) (w : JSValue), k ∉ shape.map Prod.fst →
      fastObj shape (fields ++ [(k, w)]) = fastObj shape fields := by
  intro shape
  induction shape with
  | nil =>
    intro fields k w hk
    simp [fastObj]
  | cons q rest ihl =>
    intro fields k w hk
    rcases q with ⟨k2, fs⟩
    simp only [List.map_cons, List.mem_cons, not_or] at hk
    simp only [fastObj]
    rw [lookupField_append_ne fields k k2 w (fun he => hk.1 he.symm)]
    rw [ihl fields k w hk.2]

/-- C4 (confirmed): an accepted object parse returns exactly the declared
keys, each bound to its field schema run on the corresponding input field
(`undefined` when the key is absent, by the second conjunct), and appending
an undeclared key to the input changes nothing in non-strict mode. -/
theorem claim_C4 (shape : List (String × SchemaD)) (fields : List (String × JSValue))
    (d : JSValue)
    (h : safeParse (createObjectSchema shape) (.vobj fields) = SafeParseResult.success d) :
    (∃ pv, d = JSValue.vobj pv ∧
      pv.map Prod.fst = shape.map Prod.fst ∧
      List.Forall₂
        (fun q pq => pq.1 = q.1 ∧ fastP q.2 (lookupField fields q.1) = GRes.ok pq.2)
        shape pv) ∧
    (∀ k, k ∉ fields.map Prod.fst → lookupField fields k = JSValue.vundef) ∧
    (∀ k w, k ∉ shape.map Prod.fst →
      fastP (createObjectSchema shape) (.vobj (fields ++ [(k, w)])) =
        fastP (createObjectSchema shape) (.vobj fields)) := by
  have hf := (safeParse_success_iff (createObjectSchema shape) (.vobj fields) d).mp h
  refine ⟨?_, fun k hk => lookupField_not_mem fields k hk, ?_⟩
  · rcases hobj : fastObj shape fields with pv | _ | m
    · refine ⟨pv, ?_, fastObj_keys shape fields pv hobj, fastObj_ok_forall2 shape fields pv hobj⟩
      simp only [createObjectSchema, fastP, hobj] at hf
      simp at hf
      first
      | exact hf.symm
      | exact hf
    · simp [createObjectSchema, fastP, hobj] at hf
    · simp [createObjectSchema, fastP, hobj] at hf
  · intro k w hk
    have hfo := fastObj_append_ne shape fields k w hk
    simp only [createObjectSchema, fastP]
    rw [hfo]
    simp

/-- C4 witness: the shape `{a: number}` on input `{a: 1, x: "s"}` parses to
`{a: 1}`, dropping the undeclared key. -/
theorem claim_C4_witness :
    (safeParse (createObjectSchema [("a", SchemaD.numberS)])
        (JSValue.vobj [("a", JSValue.vnum 1), ("x", JSValue.vstr "s")]) =
      SafeParseResult.success (JSValue.vobj [("a", JSValue.vnum 1)])) ∧
    (∃ pv, JSValue.vobj [("a", JSValue.vnum 1)] = JSValue.vobj pv ∧
      pv.map Prod.fst = ([("a", SchemaD.numberS)].map Prod.fst) ∧
      List.Forall₂
        (fun q pq => pq.1 = q.1 ∧
          fastP q.2 (lookupField [("a", JSValue.vnum 1), ("x", JSValue.vstr "s")] q.1) =
            GRes.ok pq.2)
        [("a", SchemaD.numberS)] pv) := by
  have hyp : safeParse (createObjectSchema [("a", SchemaD.numberS)])
      (JSValue.vobj [("a", JSValue.vnum 1), ("x", JSValue.vstr "s")]) =
      SafeParseResult.success (JSValue.vobj [("a", JSValue.vnum 1)]) := by
    rw [safeParse_success_iff]
    simp [createObjectSchema, fastP, fastObj, lookupField]
  exact ⟨hyp, (claim_C4 [("a", SchemaD.numberS)]
    [("a", JSValue.vnum 1), ("x", JSValue.vstr "s")]
    (JSValue.vobj [("a", JSValue.vnum 1)]) hyp).1⟩

/-- C5 (confirmed): the strict object rejects the extra key with the
aggregate error at the object path, while the non-strict object accepts and
drops it. -/
theorem claim_C5 :
    (safeParse (createStrictObjectSchema [("name", createStringSchema)])
        (.vobj [("name", .vstr "a"), ("extra", .vnum 1)]) =
      SafeParseResult.failure ("Validation failed: Unrecognized keys: extra (at path /)")
        [⟨[], ("Unrecognized keys: extra")⟩]) ∧
    (safeParse (createObjectSchema [("name", createStringSchema)])
        (.vobj [("name", .vstr "a"), ("extra", .vnum 1)]) =
      SafeParseResult.success (.vobj [("name", .vstr "a")])) := by
  constructor
  · simp [createStrictObjectSchema, createStringSchema, safeParse, sp, spObjFail, diagObj,
      fastP, fastObj, lookupField, unrecognizedKeys, hasKeyS, getType, pushError, mkMessage,
      fmtError, pathJoin, commaSep, slashSep, entryToString]
    try decide
  · rw [safeParse_success_iff]
    simp [createObjectSchema, createStringSchema, fastP, fastObj, lookupField]

/-- C6 (confirmed): the three-level nested failure yields exactly one error,
at path `a/b/c`, and the aggregate message renders that path. -/
theorem claim_C6 :
    safeParse c6Schema c6Input =
      SafeParseResult.failure
        ("Validation failed: Expected number, got string (at path /a/b/c)")
        [⟨[PathEntry.key "a", PathEntry.key "b", PathEntry.key "c"],
          ("Expected number, got string")⟩] := by
  have hf1 : fastP (SchemaD.objectS [("c", SchemaD.numberS)] false)
      (JSValue.vobj [("c", JSValue.vstr "x")]) = GRes.fail := by
    simp [fastP, fastObj, lookupField]
  have hf2 : fastP (SchemaD.objectS
        [("b", SchemaD.objectS [("c", SchemaD.numberS)] false)] false)
      (JSValue.vobj [("b", JSValue.vobj [("c", JSValue.vstr "x")])]) = GRes.fail := by
    simp [fastP, fastObj, lookupField, hf1]
  have hf3 : fastP (SchemaD.objectS
        [("a", SchemaD.objectS
          [("b", SchemaD.objectS [("c", SchemaD.numberS)] false)] false)] false)
      (JSValue.vobj [("a", JSValue.vobj [("b", JSValue.vobj [("c", JSValue.vstr "x")])])]) =
      GRes.fail := by
    simp [fastP, fastObj, lookupField, hf2]
  have herr : sp SchemaD.numberS (JSValue.vstr "x")
      [PathEntry.key "a", PathEntry.key "b", PathEntry.key "c"] [] =
      (GRes.fail, [⟨[PathEntry.key "a", PathEntry.key "b", PathEntry.key "c"],
        "Expected number, got string"⟩]) := by
    simp [sp, fastP, getType, pushError]
  have hsp1 : sp (SchemaD.objectS [("c", SchemaD.numberS)] false)
      (JSValue.vobj [("c", JSValue.vstr "x")])
      [PathEntry.key "a", PathEntry.key "b"] [] =
      (GRes.fail, [⟨[PathEntry.key "a", PathEntry.key "b", PathEntry.key "c"],
        "Expected number, got string"⟩]) := by
    rw [sp_obj_fastfail hf1]
    simp only [spObjFail, diagObj]
    rw [show lookupField [("c", JSValue.vstr "x")] "c" = JSValue.vstr "x" from rfl]
    rw [show ([PathEntry.key "a", PathEntry.key "b"] ++ [PathEntry.key "c"]) =
      [PathEntry.key "a", PathEntry.key "b", PathEntry.key "c"] from rfl]
    rw [herr]
    simp [diagObj]
  have hsp2 : sp (SchemaD.objectS
        [("b", SchemaD.objectS [("c", SchemaD.numberS)] false)] false)
      (JSValue.vobj [("b", JSValue.vobj [("c", JSValue.vstr "x")])])
      [PathEntry.key "a"] [] =
      (GRes.fail, [⟨[PathEntry.key "a", PathEntry.key "b", PathEntry.key "c"],
        "Expected number, got string"⟩]) := by
    rw [sp_obj_fastfail hf2]
    simp only [spObjFail, diagObj]
    rw [show lookupField [("b", JSValue.vobj [("c", JSValue.vstr "x")])] "b" =
      JSValue.vobj [("c", JSValue.vstr "x")] from rfl]
    rw [show ([PathEntry.key "a"] ++ [PathEntry.key "b"]) =
      [PathEntry.key "a", PathEntry.key "b"] from rfl]
    rw [hsp1]
    simp [diagObj]
  have hsp3 : sp (SchemaD.objectS
        [("a", SchemaD.objectS
          [("b", SchemaD.objectS [("c", SchemaD.numberS)] false)] false)] false)
      (JSValue.vobj [("a", JSValue.vobj [("b", JSValue.vobj [("c", JSValue.vstr "x")])])])
      [] [] =
      (GRes.fail, [⟨[PathEntry.key "a", PathEntry.key "b", PathEntry.key "c"],
        "Expected number, got string"⟩]) := by
    rw [sp_obj_fastfail hf3]
    simp only [spObjFail, diagObj]
    rw [show lookupField
      [("a", JSValue.vobj [("b", JSValue.vobj [("c", JSValue.vstr "x")])])] "a" =
      JSValue.vobj [("b", JSValue.vobj [("c", JSValue.vstr "x")])] from rfl]
    rw [show (([] : EPath) ++ [PathEntry.key "a"]) = [PathEntry.key "a"] from rfl]
    rw [hsp2]
    simp [diagObj]
  have hm : mkMessage [⟨[PathEntry.key "a", PathEntry.key "b", PathEntry.key "c"],
      "Expected number, got string"⟩] =
      ("Validation failed: Expected number, got string (at path /a/b/c)") := by
    decide
  rw [show c6Schema = SchemaD.objectS
      [("a", SchemaD.objectS
        [("b", SchemaD.objectS [("c", SchemaD.numberS)] false)] false)] false from rfl]
  rw [show c6Input =
      JSValue.vobj [("a", JSValue.vobj [("b", JSValue.vobj [("c", JSValue.vstr "x")])])]
    from rfl]
  rw [safeParse_of_sp_fail hsp3, hm]

/-- C7 (amended): each primitive schema rejects a wrongly-typed input with
message `Expected <kind>, got <getType input>`, the type tag alone.  The
claim as stated (that the actual is rendered with the input value, e.g.
`string "hello"`) is refuted by `claim_C7_counterexample`. -/
theorem claim_C7 (p : EPath) (errs : List VError) (v1 v2 v3 v4 : JSValue)
    (h1 : getType v1 ≠ "string") (h2 : getType v2 ≠ "number")
    (h3 : getType v3 ≠ "boolean") (h4 : getType v4 ≠ "bigint") :
    sp createStringSchema v1 p errs =
      (GRes.fail, pushError p errs ("Expected string, got " ++ getType v1)) ∧
    sp createNumberSchema v2 p errs =
      (GRes.fail, pushError p errs ("Expected number, got " ++ getType v2)) ∧
    sp createBooleanSchema v3 p errs =
      (GRes.fail, pushError p errs ("Expected boolean, got " ++ getType v3)) ∧
    sp createBigIntSchema v4 p errs =
      (GRes.fail, pushError p errs ("Expected bigint, got " ++ getType v4)) := by
  refine ⟨?_, ?_, ?_, ?_⟩
  · cases v1 <;> simp [createStringSchema, sp, fastP, getType] at h1 ⊢
  · cases v2 <;> simp [createNumberSchema, sp, fastP, getType] at h2 ⊢
  · cases v3 <;> simp [createBooleanSchema, sp, fastP, getType] at h3 ⊢
  · cases v4 <;> simp [createBigIntSchema, sp, fastP, getType] at h4 ⊢

/-- C7 counterexample: `number().safeParse("hello")` reports the actual as
the bare type tag `string`; the message does not contain the value
rendering `hello` anywhere. -/
theorem claim_C7_counterexample :
    safeParse createNumberSchema (.vstr "hello") =
      SafeParseResult.failure ("Validation failed: Expected number, got string (at path /)")
        [⟨[], ("Expected number, got string")⟩] ∧
    containsSub ("Validation failed: Expected number, got string (at path /)") ("hello") =
      false := by
  constructor
  · simp [createNumberSchema, safeParse, sp, fastP, getType, pushError, mkMessage, fmtError,
      pathJoin, commaSep, slashSep, entryToString]
    try decide
  · decide

/-- C7 witness: the amended statement at `null` and a string input. -/
theorem claim_C7_witness :
    (getType JSValue.vnull ≠ "string") ∧
    sp createStringSchema JSValue.vnull [] [] =
      (GRes.fail, pushError [] [] ("Expected string, got " ++ getType JSValue.vnull)) ∧
    sp createNumberSchema (JSValue.vstr "hello") [] [] =
      (GRes.fail, pushError [] [] ("Expected number, got " ++ getType (JSValue.vstr "hello"))) ∧
    sp createBooleanSchema JSValue.vnull [] [] =
      (GRes.fail, pushError [] [] ("Expected boolean, got " ++ getType JSValue.vnull)) ∧
    sp createBigIntSchema JSValue.vnull [] [] =
      (GRes.fail, pushError [] [] ("Expected bigint, got " ++ getType JSValue.vnull)) :=
  ⟨by decide,
    claim_C7 [] [] JSValue.vnull (JSValue.vstr "hello") JSValue.vnull JSValue.vnull
      (by decide) (by decide) (by decide) (by decide)⟩

/-- C8 (confirmed): optional, nullable and nullish are unions with the
`undefined` and `null` singleton schemas placed before the base schema;
each accepts the corresponding sentinel values unchanged, and on any other
input succeeds exactly when the base schema does, with the same data. -/
theorem claim_C8 (s : SchemaD) (v1 v2 v3 : JSValue)
    (h1 : v1 ≠ JSValue.vundef) (h2 : v2 ≠ JSValue.vnull)
    (h3n : v3 ≠ JSValue.vnull) (h3u : v3 ≠ JSValue.vundef) :
    (createOptionalSchema s = SchemaD.unionS [SchemaD.undefinedS, s] ∧
     createNullableSchema s = SchemaD.unionS [SchemaD.nullS, s] ∧
     createNullishSchema s = SchemaD.unionS [SchemaD.nullS, SchemaD.undefinedS, s]) ∧
    (safeParse (createOptionalSchema s) JSValue.vundef =
        SafeParseResult.success JSValue.vundef ∧
     safeParse (createNullableSchema s) JSValue.vnull =
        SafeParseResult.success JSValue.vnull ∧
     safeParse (createNullishSchema s) JSValue.vnull =
        SafeParseResult.success JSValue.vnull ∧
     safeParse (createNullishSchema s) JSValue.vundef =
        SafeParseResult.success JSValue.vundef) ∧
    (∀ d, safeParse (createOptionalSchema s) v1 = SafeParseResult.success d ↔
       safeParse s v1 = SafeParseResult.success d) ∧
    (∀ d, safeParse (createNullableSchema s) v2 = SafeParseResult.success d ↔
       safeParse s v2 = SafeParseResult.success d) ∧
    (∀ d, safeParse (createNullishSchema s) v3 = SafeParseResult.success d ↔
       safeParse s v3 = SafeParseResult.success d) := by
  refine ⟨⟨rfl, rfl, rfl⟩, ⟨?_, ?_, ?_, ?_⟩, ?_, ?_, ?_⟩
  · rw [safeParse_success_iff]
    simp [createOptionalSchema, fastP, fastUnion]
  · rw [safeParse_success_iff]
    simp [createNullableSchema, fastP, fastUnion]
  · rw [safeParse_success_iff]
    simp [createNullishSchema, fastP, fastUnion]
  · rw [safeParse_success_iff]
    simp [createNullishSchema, fastP, fastUnion]
  · intro d
    rw [safeParse_success_iff, safeParse_success_iff, optional_fastP s v1 h1]
  · intro d
    rw [safeParse_success_iff, safeParse_success_iff, nullable_fastP s v2 h2]
  · intro d
    rw [safeParse_success_iff, safeParse_success_iff, nullish_fastP s v3 h3n h3u]

/-- C8 witness: the union shape of `number().optional()` at concrete
non-sentinel inputs. -/
theorem claim_C8_witness :
    (JSValue.vnull ≠ JSValue.vundef) ∧
    (createOptionalSchema SchemaD.numberS =
        SchemaD.unionS [SchemaD.undefinedS, SchemaD.numberS] ∧
     createNullableSchema SchemaD.numberS =
        SchemaD.unionS [SchemaD.nullS, SchemaD.numberS] ∧
     createNullishSchema SchemaD.numberS =
        SchemaD.unionS [SchemaD.nullS, SchemaD.undefinedS, SchemaD.numberS]) :=
  ⟨fun h => JSValue.noConfusion h,
    (claim_C8 SchemaD.numberS JSValue.vnull JSValue.vundef (JSValue.vnum 0)
      (fun h => JSValue.noConfusion h) (fun h => JSValue.noConfusion h)
      (fun h => JSValue.noConfusion h) (fun h => JSValue.noConfusion h)).1⟩

/-- C9 (amended): on the transform-free, union-free schema fragment, a
successful parse is idempotent: parsing the parsed output again succeeds
with the same value.  The claim as stated over every schema is refuted by
`claim_C9_counterexample` (a transform whose function is not idempotent, and
a union whose branch choice changes on the re-parse). -/
theorem claim_C9 {s : SchemaD} (hs : IdemOK s) (v r : JSValue)
    (h : safeParse s v = SafeParseResult.success r) :
    safeParse s r = SafeParseResult.success r := by
  rw [safeParse_success_iff] at h ⊢
  exact fastP_idem hs v r h

/-- C9 counterexample: `number().transform(() => "x")` parses `5` to `"x"`
but throws on re-parsing `"x"`; the union `uEx` parses `uIn` to `uR` but
re-parses `uR` to the different value `uW` (the first branch now wins and
drops the `b` field). -/
theorem claim_C9_counterexample :
    (parse tEx (.vnum 5) = ParseResult.ok (.vstr "x") ∧
     parse tEx (.vstr "x") =
       ParseResult.threw ("Validation failed: Expected number, got string (at path /)")) ∧
    (parse uEx uIn = ParseResult.ok uR ∧
     parse uEx uR = ParseResult.ok uW ∧
     uW ≠ uR) := by
  refine ⟨⟨?_, ?_⟩, ?_, ?_, ?_⟩
  · rw [parse_ok_iff]
    simp [tEx, fastP]
  · simp [parse, safeParse, tEx, sp, fastP, getType, pushError, mkMessage, fmtError,
      pathJoin, commaSep, slashSep, entryToString]
    try decide
  · rw [parse_ok_iff]
    simp [uEx, uExA, uExB, uIn, uR, fastP, fastUnion, fastObj, lookupField,
      unrecognizedKeys, hasKeyS, getType]
  · rw [parse_ok_iff]
    simp [uEx, uExA, uExB, uR, uW, fastP, fastUnion, fastObj, lookupField,
      unrecognizedKeys, hasKeyS, getType]
  · simp [uW, uR]

/-- C9 witness: an array-of-number parse re-parses to itself. -/
theorem claim_C9_witness :
    IdemOK (SchemaD.arrayS SchemaD.numberS) ∧
      safeParse (SchemaD.arrayS SchemaD.numberS) (JSValue.varr [JSValue.vnum 1]) =
        SafeParseResult.success (JSValue.varr [JSValue.vnum 1]) := by
  have hi : IdemOK (SchemaD.arrayS SchemaD.numberS) := IdemOK.arrayC IdemOK.numberC
  have hyp : safeParse (SchemaD.arrayS SchemaD.numberS) (JSValue.varr [JSValue.vnum 1]) =
      SafeParseResult.success (JSValue.varr [JSValue.vnum 1]) := by
    rw [safeParse_success_iff]
    simp [fastP, fastArr]
  exact ⟨hi, claim_C9 hi (JSValue.varr [JSValue.vnum 1]) (JSValue.varr [JSValue.vnum 1]) hyp⟩

/-- C10 (amended): on schemas in which `record` does not occur outside a
`transform`, the verdict (and success data) of the validation function is
the same with and without a context, and a supplied context only appends
error records.  The claim as stated over every schema is refuted by
`claim_C10_counterexample`: the diagnostic pass can reach a record field the
fast pass never ran and throw there, changing the verdict. -/
theorem claim_C10 {s : SchemaD} (hs : NoBareRecord s) (v : JSValue) (p : EPath)
    (errs : List VError) :
    (spOpt s v (some (p, errs))).1 = (spOpt s v none).1 ∧
    ∃ t, (spOpt s v (some (p, errs))).2 = errs ++ t := by
  constructor
  · show (sp s v p errs).1 = fastP s v
    rcases hr : (sp s v p errs).1 with d | _ | m
    · exact ((sp_ok_iff s v p errs d).mp hr).symm
    · rcases hfa : fastP s v with d | _ | m
      · exact absurd ((sp_ok_iff s v p errs d).mpr hfa) (by rw [hr]; simp)
      · rfl
      · exact absurd hfa (fastP_no_raise hs v m)
    · exact absurd hr (sp_no_raise hs v p errs m)
  · show ∃ t, (sp s v p errs).2 = errs ++ t
    exact sp_errs_append s v p errs

/-- C10 counterexample: on `c10S`/`c10V` the context-free call fails but the
context-carrying call throws (the record field, skipped by the fast pass
after the first field failed, runs in the diagnostic pass and raises). -/
theorem claim_C10_counterexample :
    (spOpt c10S c10V none).1 = GRes.fail ∧
    (spOpt c10S c10V (some ([], []))).1 = GRes.raise ("Expected object, got null") := by
  constructor
  · simp [c10S, c10V, spOpt, fastP, fastObj, lookupField, getType]
  · simp [c10S, c10V, spOpt, sp, spObjFail, diagObj, fastP, fastObj, fastRec, lookupField,
      getType, pushError]

/-- C10 witness: the amended statement at the number schema. -/
theorem claim_C10_witness :
    NoBareRecord SchemaD.numberS ∧
      ((spOpt SchemaD.numberS (JSValue.vnum 0) (some ([], []))).1 =
          (spOpt SchemaD.numberS (JSValue.vnum 0) none).1 ∧
        ∃ t, (spOpt SchemaD.numberS (JSValue.vnum 0) (some ([], []))).2 =
          ([] : List VError) ++ t) :=
  ⟨NoBareRecord.numberC, claim_C10 NoBareRecord.numberC (JSValue.vnum 0) [] []⟩
